import Mathlib

/-!
Verification of the template directive engine and the .prompty template
parser of the ai-vibe-check-platform repository.

The embedding below is a shallow model of the TypeScript sources:

* `TemplateEngine` (frontend/src/utils/templateEngine.ts): the class whose
  methods `processTemplate`, `processConditionals`, `processIfElseIfChain`,
  `processVariables`, `evaluateCondition`, `evaluateExpression`,
  `parseValue`, `isTruthy`, `cleanupTemplate`, `extractVariables` are
  modelled function by function.  JavaScript values flowing through the
  engine are modelled by the inductive type `JSVal`; the regular-expression
  passes of the engine are modelled by explicit character scanners whose
  behaviour matches the leftmost-match / lazy / greedy backtracking
  semantics of the concrete regexes used in the source (each scanner
  carries a comment recording the regex it implements).

* `McpTemplateLoader.parsePromptyFile` (frontend/src/utils/mcpTemplateLoader.ts):
  the `.prompty` document parser (split on "---", YAML frontmatter,
  defaulted template record).  The YAML decoder is an external library
  (js-yaml) and is passed as a function parameter.

Numbers are modelled as rationals: every numeric literal the engine can
parse (`/^-?\d+(\.\d+)?$/` via parseFloat) denotes a decimal fraction that
is represented exactly.  NaN is not representable as a value; where a
JavaScript coercion can produce NaN (ToNumber), the model uses
`Option ℚ` with `none` playing the role of NaN.
-/

namespace VibeCheck

/-- Model of a JavaScript value as it flows through the template engine:
`undefined`, `null`, booleans, numbers (exact rationals standing for the
decimal doubles produced by `parseFloat` on literal syntax), strings,
arrays and plain objects (insertion-ordered string-keyed fields). -/
inductive JSVal where
  | undef : JSVal
  | null : JSVal
  | bool : Bool → JSVal
  | num : ℚ → JSVal
  | str : String → JSVal
  | arr : List JSVal → JSVal
  | obj : List (String × JSVal) → JSVal
deriving Repr

/-- Variable mapping supplied to a render call: the `variables` object. -/
def Ctx : Type := List (String × JSVal)

/-- Property lookup on a JavaScript object literal (first binding wins,
matching lookup on an object whose keys are unique). -/
def ctxLookup (ctx : List (String × JSVal)) (k : String) : Option JSVal :=
  (ctx.find? (fun p => p.1 = k)).map Prod.snd

/-- Whitespace class of JavaScript `\s` (the code points the engine's
regexes and `String.prototype.trim` treat as whitespace; the exotic
Unicode space characters are not modelled). -/
def jsWs (c : Char) : Bool :=
  c = ' ' ∨ c = '\t' ∨ c = '\n' ∨ c = '\r' ∨ c = '\x0b' ∨ c = '\x0c'

/-- Character class of JavaScript regex `\w`. -/
def wordChar (c : Char) : Bool :=
  (('a' ≤ c ∧ c ≤ 'z') ∨ ('A' ≤ c ∧ c ≤ 'Z') ∨ ('0' ≤ c ∧ c ≤ '9') ∨ c = '_')

/-- Characters matched by `.` in a JavaScript regex without the `s` flag
(anything but a line terminator). -/
def dotOk (c : Char) : Bool := ¬ (c = '\n' ∨ c = '\r')

/-- Decimal digit test. -/
def isDigit (c : Char) : Bool := '0' ≤ c ∧ c ≤ '9'

/-- JavaScript `String.prototype.trim` on a character list. -/
def jsTrimL (s : List Char) : List Char :=
  ((s.dropWhile jsWs).reverse.dropWhile jsWs).reverse

/-- JavaScript `String.prototype.trim`. -/
def jsTrim (s : String) : String := String.mk (jsTrimL s.data)

/-- Does `pat` occur as a contiguous subsequence of `s`? (Scanner form:
`pat` is a prefix of some suffix.) -/
def containsSeq (pat : List Char) : List Char → Bool
  | [] => pat.isPrefixOf []
  | c :: rest => pat.isPrefixOf (c :: rest) || containsSeq pat rest

/-- Fuelled scanner for JavaScript `String.prototype.split` with a
non-empty string separator: leftmost, non-overlapping occurrences. -/
def splitOnSeqF (sep : List Char) : ℕ → List Char → List (List Char)
  | 0, s => [s]
  | fuel + 1, s =>
    match s with
    | [] => [[]]
    | c :: rest =>
      if sep ≠ [] ∧ sep.isPrefixOf (c :: rest) then
        [] :: splitOnSeqF sep fuel (List.drop (sep.length - 1) rest)
      else
        match splitOnSeqF sep fuel rest with
        | [] => [[c]]
        | p :: ps => (c :: p) :: ps

/-- JavaScript `String.prototype.split` at its natural fuel. -/
def splitOnSeq (sep : List Char) (s : List Char) : List (List Char) :=
  splitOnSeqF sep (s.length + 1) s

/-- Numeric value of a list of decimal digits. -/
def natOfDigits (ds : List Char) : ℕ :=
  ds.foldl (fun a c => a * 10 + (c.toNat - '0'.toNat)) 0

/-- Parser for the numeric-literal regex `/^-?\d+(\.\d+)?$/` used both in
`evaluateExpression` and in `parseValue` (full-string match; parseFloat on
such a literal yields exactly the denoted decimal fraction). -/
def parseNumLit (s : List Char) : Option ℚ :=
  let (neg, s1) :=
    match s with
    | '-' :: rest => (true, rest)
    | _ => (false, s)
  let ip := s1.takeWhile isDigit
  let s2 := s1.dropWhile isDigit
  if ip = [] then none
  else
    match s2 with
    | [] =>
      let v : ℚ := (natOfDigits ip : ℚ)
      some (if neg then -v else v)
    | '.' :: s3 =>
      let fp := s3.takeWhile isDigit
      let s4 := s3.dropWhile isDigit
      if fp = [] ∨ s4 ≠ [] then none
      else
        let v : ℚ := mkRat ((natOfDigits ip * 10 ^ fp.length + natOfDigits fp : ℕ) : ℤ)
          (10 ^ fp.length)
        some (if neg then -v else v)
    | _ => none

/-- Parser for JavaScript `ToNumber` applied to a trimmed non-empty string:
optional sign, decimal mantissa (`5`, `5.`, `.5`, `5.5`), optional decimal
exponent.  Hexadecimal/octal/binary literals and `Infinity` are not
modelled (they yield `none`, the NaN marker, in this model). -/
def parseJsNumber (s : List Char) : Option ℚ :=
  let (neg, s1) :=
    match s with
    | '-' :: rest => (true, rest)
    | '+' :: rest => (false, rest)
    | _ => (false, s)
  let ip := s1.takeWhile isDigit
  let s2 := s1.dropWhile isDigit
  let (fp, s3) :=
    match s2 with
    | '.' :: r => (r.takeWhile isDigit, r.dropWhile isDigit)
    | _ => ([], s2)
  if ip = [] ∧ fp = [] then none
  else
    let mn : ℕ := natOfDigits ip * 10 ^ fp.length + natOfDigits fp
    let md : ℕ := 10 ^ fp.length
    let signed := fun (n : ℕ) => if neg then -(n : ℤ) else (n : ℤ)
    match s3 with
    | [] => some (mkRat (signed mn) md)
    | e :: r =>
      if e = 'e' ∨ e = 'E' then
        let (eneg, r1) :=
          match r with
          | '-' :: rr => (true, rr)
          | '+' :: rr => (false, rr)
          | _ => (false, r)
        let ed := r1.takeWhile isDigit
        let r2 := r1.dropWhile isDigit
        if ed = [] ∨ r2 ≠ [] then none
        else
          let k := natOfDigits ed
          some (if eneg then mkRat (signed mn) (md * 10 ^ k) else mkRat (signed (mn * 10 ^ k)) md)
      else none

/-- Smallest exponent `k ≤ 40` with `den ∣ 10^k`, if any. -/
def minPow10 (den : ℕ) : Option ℕ :=
  (List.range 41).find? (fun k => 10 ^ k % den = 0)

/-- Left-pad a string of digits with zeros up to length `n`. -/
def padZeros (s : String) (n : ℕ) : String :=
  String.mk (List.replicate (n - s.length) '0') ++ s

/-- The decimal digit character for `k < 10`. -/
def digitChar (k : ℕ) : Char :=
  if k = 0 then '0' else if k = 1 then '1' else if k = 2 then '2' else if k = 3 then '3'
  else if k = 4 then '4' else if k = 5 then '5' else if k = 6 then '6' else if k = 7 then '7'
  else if k = 8 then '8' else '9'

/-- Fuelled decimal digit expansion of a natural number. -/
def natDigitsF : ℕ → ℕ → List Char
  | 0, _ => []
  | fuel + 1, n => if n < 10 then [digitChar n] else natDigitsF fuel (n / 10) ++ [digitChar (n % 10)]

/-- Decimal rendering of a natural number. -/
def natToString (n : ℕ) : String := String.mk (natDigitsF (n + 1) n)

/-- Decimal rendering of an integer. -/
def intToString (i : ℤ) : String :=
  if i < 0 then "-" ++ natToString i.natAbs else natToString i.natAbs

/-- JavaScript number-to-string conversion on the modelled rationals:
integers print without a decimal point, decimal fractions print with the
minimal number of fractional digits (this agrees with the
shortest-roundtrip printing of doubles obtained from parseFloat on the
decimal literals the engine handles).  A rational whose denominator is
not of the form 2^a*5^b is not the value of any such literal; it prints
as `num/den` (model artifact, unreachable from engine input syntax). -/
def numToString (q : ℚ) : String :=
  if q.den = 1 then intToString q.num
  else
    match minPow10 q.den with
    | some k =>
      let scaled : ℕ := q.num.natAbs * (10 ^ k / q.den)
      let ds := padZeros (natToString scaled) (k + 1)
      let ip := String.mk (ds.data.take (ds.length - k))
      let fp := String.mk (ds.data.drop (ds.length - k))
      (if q.num < 0 then "-" else "") ++ ip ++ "." ++ fp
    | none => intToString q.num ++ "/" ++ natToString q.den

mutual

/-- JavaScript `String(value)` on the modelled values. -/
def jsToString : JSVal → String
  | .undef => "undefined"
  | .null => "null"
  | .bool b => if b then "true" else "false"
  | .num q => numToString q
  | .str s => s
  | .arr xs => arrJoinStr xs
  | .obj _ => "[object Object]"

/-- `Array.prototype.join(",")` as used by array-to-string coercion:
`null`/`undefined` elements become empty strings. -/
def arrJoinStr : List JSVal → String
  | [] => ""
  | [x] => arrElemStr x
  | x :: y :: rest => arrElemStr x ++ "," ++ arrJoinStr (y :: rest)

/-- Stringification of one array element inside `join`. -/
def arrElemStr : JSVal → String
  | .undef => ""
  | .null => ""
  | .bool b => if b then "true" else "false"
  | .num q => numToString q
  | .str s => s
  | .arr xs => arrJoinStr xs
  | .obj _ => "[object Object]"

end

/-- JavaScript `ToNumber`; `none` models NaN. -/
def toNumber : JSVal → Option ℚ
  | .undef => none
  | .null => some 0
  | .bool b => some (if b then 1 else 0)
  | .num q => some q
  | .str s =>
    let t := jsTrimL s.data
    if t = [] then some 0 else parseJsNumber t
  | .arr xs =>
    let t := jsTrimL (arrJoinStr xs).data
    if t = [] then some 0 else parseJsNumber t
  | .obj _ => none

/-- The engine's custom truthiness (`TemplateEngine.isTruthy`):
undefined/null are false, numbers are nonzero, strings/arrays are
nonempty, objects have at least one key. -/
def isTruthy : JSVal → Bool
  | .undef => false
  | .null => false
  | .bool b => b
  | .num q => q ≠ 0
  | .str s => s.length > 0
  | .arr xs => xs.length > 0
  | .obj fs => fs.length > 0

/-- Native JavaScript truthiness (`Boolean(value)`, used by `value && ...`
guards): differs from the engine's `isTruthy` in that every object and
array is truthy, even when empty. -/
def jsNativeTruthy : JSVal → Bool
  | .undef => false
  | .null => false
  | .bool b => b
  | .num q => q ≠ 0
  | .str s => s.length > 0
  | .arr _ => true
  | .obj _ => true

/-- `TemplateEngine.parseValue`: coerce a string that looks like a number
or boolean literal; leave every other value unchanged. -/
def parseValue : JSVal → JSVal
  | .str s =>
    match parseNumLit s.data with
    | some q => .num q
    | none =>
      if s = "true" then .bool true
      else if s = "false" then .bool false
      else .str s
  | v => v

mutual

/-- Structural equality on modelled values.  JavaScript `===` compares
objects and arrays by reference; both operands of the engine's
comparisons are produced by `evaluateExpression`, so a comparison of a
variable with itself yields identical references.  This model compares
containers structurally (a modelling choice that is exact on primitives,
which is all the comparison helpers are exercised with). -/
def jsvalBeq : JSVal → JSVal → Bool
  | .undef, .undef => true
  | .null, .null => true
  | .bool a, .bool b => a = b
  | .num a, .num b => a = b
  | .str a, .str b => a = b
  | .arr a, .arr b => jsvalListBeq a b
  | .obj a, .obj b => jsvalFieldsBeq a b
  | _, _ => false

/-- Pointwise equality of value lists. -/
def jsvalListBeq : List JSVal → List JSVal → Bool
  | [], [] => true
  | x :: xs, y :: ys => jsvalBeq x y && jsvalListBeq xs ys
  | _, _ => false

/-- Pointwise equality of object field lists. -/
def jsvalFieldsBeq : List (String × JSVal) → List (String × JSVal) → Bool
  | [], [] => true
  | (k, v) :: xs, (l, w) :: ys => (k = l : Bool) && jsvalBeq v w && jsvalFieldsBeq xs ys
  | _, _ => false

end

/-- JavaScript `ToPrimitive` with number hint on the modelled values
(arrays and objects convert through their default string form). -/
def toPrim : JSVal → JSVal
  | .arr xs => .str (arrJoinStr xs)
  | .obj _ => .str "[object Object]"
  | v => v

/-- JavaScript loose equality `==`. -/
def jsLooseEq : ℕ → JSVal → JSVal → Bool
  | 0, _, _ => false
  | fuel + 1, a, b =>
    match a, b with
    | .undef, .undef => true
    | .undef, .null => true
    | .null, .undef => true
    | .null, .null => true
    | .num p, .num q => p = q
    | .str s, .str t => s = t
    | .bool p, .bool q => p = q
    | .num p, .str t => toNumber (.str t) = some p
    | .str s, .num q => toNumber (.str s) = some q
    | .bool p, y => jsLooseEq fuel (.num (if p then 1 else 0)) y
    | x, .bool q => jsLooseEq fuel x (.num (if q then 1 else 0))
    | .num p, .arr xs => jsLooseEq fuel (.num p) (.str (arrJoinStr xs))
    | .arr xs, .num q => jsLooseEq fuel (.str (arrJoinStr xs)) (.num q)
    | .str s, .arr xs => s = arrJoinStr xs
    | .arr xs, .str t => arrJoinStr xs = t
    | .str s, .obj _ => s = "[object Object]"
    | .obj _, .str t => "[object Object]" = t
    | .arr x, .arr y => jsvalBeq (.arr x) (.arr y)
    | .obj x, .obj y => jsvalBeq (.obj x) (.obj y)
    | _, _ => false

/-- Code-unit lexicographic order on strings (JavaScript string `<`). -/
def strLtL : List Char → List Char → Bool
  | [], [] => false
  | [], _ :: _ => true
  | _ :: _, [] => false
  | a :: as, b :: bs => if a < b then true else if b < a then false else strLtL as bs

/-- JavaScript `<` (abstract relational comparison; NaN-involving
comparisons are false). -/
def jsLtB (a b : JSVal) : Bool :=
  match toPrim a, toPrim b with
  | .str s, .str t => strLtL s.data t.data
  | pa, pb =>
    match toNumber pa, toNumber pb with
    | some x, some y => x < y
    | _, _ => false

/-- JavaScript `>`. -/
def jsGtB (a b : JSVal) : Bool :=
  match toPrim a, toPrim b with
  | .str s, .str t => strLtL t.data s.data
  | pa, pb =>
    match toNumber pa, toNumber pb with
    | some x, some y => y < x
    | _, _ => false

/-- JavaScript `<=`. -/
def jsLeB (a b : JSVal) : Bool :=
  match toPrim a, toPrim b with
  | .str s, .str t => !(strLtL t.data s.data)
  | pa, pb =>
    match toNumber pa, toNumber pb with
    | some x, some y => x ≤ y
    | _, _ => false

/-- JavaScript `>=`. -/
def jsGeB (a b : JSVal) : Bool :=
  match toPrim a, toPrim b with
  | .str s, .str t => !(strLtL s.data t.data)
  | pa, pb =>
    match toNumber pa, toNumber pb with
    | some x, some y => y ≤ x
    | _, _ => false

/-- `typeof v === 'object'` (true for objects, arrays and `null`). -/
def typeofObject : JSVal → Bool
  | .obj _ => true
  | .arr _ => true
  | .null => true
  | _ => false

/-- Canonical array-index reading of a property key (`"0"`, `"1"`, ...,
no leading zeros), as used by array element access. -/
def canonIndex (s : String) : Option ℕ :=
  match s.data with
  | [] => none
  | ds =>
    if ds.all isDigit ∧ (ds.head? = some '0' → ds = ['0']) then some (natOfDigits ds)
    else none

/-- Membership test of the JavaScript `in` operator restricted to own
properties (plus array `length`); inherited prototype members are not
modelled. -/
def jsHasProp (v : JSVal) (k : String) : Bool :=
  match v with
  | .obj fs => fs.any (fun p => p.1 = k)
  | .arr xs =>
    match canonIndex k with
    | some i => i < xs.length
    | none => k = "length"
  | _ => false

/-- Property read `v[k]` on objects and arrays (undefined when absent). -/
def jsGetProp (v : JSVal) (k : String) : JSVal :=
  match v with
  | .obj fs => (ctxLookup fs k).getD .undef
  | .arr xs =>
    if k = "length" then .num (xs.length : ℚ)
    else
      match canonIndex k with
      | some i => xs.getD i .undef
      | none => .undef
  | _ => (.undef)

/-- Walk of a dotted property path, mirroring the loop in
`evaluateExpression`: `value && typeof value === 'object' && part in value`
continues the walk, anything else yields undefined. -/
def walkPath : List String → JSVal → JSVal
  | [], v => v
  | p :: ps, v =>
    if jsNativeTruthy v ∧ typeofObject v ∧ jsHasProp v p then walkPath ps (jsGetProp v p)
    else (.undef)

/-- `TemplateEngine.evaluateExpression`, fuelled for the recursion into a
bracket index expression.  Errors model thrown JavaScript exceptions; the
only throwing site reachable with plain-data values is an index access on
a `null` container (`typeof null === 'object'`, so the guard admits it and
`null[index]` raises a TypeError). -/
def evaluateExpr (vars : Ctx) : ℕ → String → Except String JSVal
  | 0, _ => .error "recursion fuel exhausted"
  | fuel + 1, expr =>
    let e := expr.data
    -- string literals: startsWith('"') && endsWith('"'), same for single quotes
    if e.head? = some '"' ∧ e.getLast? = some '"' then
      .ok (.str (String.mk ((e.drop 1).dropLast)))
    else if e.head? = some '\'' ∧ e.getLast? = some '\'' then
      .ok (.str (String.mk ((e.drop 1).dropLast)))
    else
      -- number literals /^-?\d+(\.\d+)?$/ via parseFloat
      match parseNumLit e with
      | some q => .ok (.num q)
      | none =>
        if expr = "true" then .ok (.bool true)
        else if expr = "false" then .ok (.bool false)
        else if expr = "null" then .ok .null
        else if expr = "undefined" then .ok .undef
        else if e.contains '.' then
          -- dotted property access
          .ok (walkPath ((splitOnSeq ['.'] e).map String.mk) (.obj vars))
        else
          -- array/object access (\w+)\[(.+)\]$  (dot excludes newlines)
          let name := e.takeWhile wordChar
          let after := e.dropWhile wordChar
          let mid := (after.drop 1).dropLast
          if name ≠ [] ∧ after.head? = some '[' ∧ e.getLast? = some ']' ∧
              mid ≠ [] ∧ mid.all dotOk then
            match evaluateExpr vars fuel (String.mk mid) with
            | .error msg => .error msg
            | .ok idx =>
              match (ctxLookup vars (String.mk name)).getD .undef with
              | .arr xs => .ok (jsGetProp (.arr xs) (jsToString idx))
              | .obj fs => .ok (jsGetProp (.obj fs) (jsToString idx))
              | .null =>
                .error ("TypeError: Cannot read properties of null (reading '" ++
                  jsToString idx ++ "')")
              | _ => .ok .undef
          else
            -- simple variable access
            .ok ((ctxLookup vars expr).getD .undef)

/-- `TemplateEngine.evaluateExpression` at its natural fuel. -/
def evaluateExpression (expr : String) (vars : Ctx) : Except String JSVal :=
  evaluateExpr vars (expr.length + 1) expr

/-- Backtracking search for the greedy `\s+` between the two operand
groups of `(.+?)\s+(.+)$`: split lengths are tried from `j` down to 1;
the remainder must be a non-empty line (`(.+)$`). -/
def wsSplitGreedy (rest : List Char) : ℕ → Option (List Char × List Char)
  | 0 => none
  | j + 1 =>
    let w := rest.take (j + 1)
    let r := rest.drop (j + 1)
    if w.all jsWs ∧ r ≠ [] ∧ r.all dotOk then some (w, r)
    else wsSplitGreedy rest j

/-- Matcher for the suffix `(.+?)\s+(.+)$` of the helper regex: the lazy
left operand grows from one character, and for each extent the greedy
whitespace separator backtracks from its maximal run. -/
def matchLazyPair : List Char → Option (List Char × List Char)
  | [] => none
  | c :: rest =>
    if ¬ dotOk c then none
    else
      match wsSplitGreedy rest ((rest.takeWhile jsWs).length) with
      | some (_, r) => some ([c], r)
      | none => (matchLazyPair rest).map (fun p => (c :: p.1, p.2))

/-- Backtracking search for the greedy outer `\s+` of
`^(\w+)\s+(.+?)\s+(.+)$`, trying separator lengths from `j` down to 1. -/
def helperWsSearch (rest : List Char) : ℕ → Option (List Char × List Char)
  | 0 => none
  | j + 1 =>
    match matchLazyPair (rest.drop (j + 1)) with
    | some p => some p
    | none => helperWsSearch rest j

/-- Matcher for the helper-call regex `/^(\w+)\s+(.+?)\s+(.+)$/`:
returns the helper word and the two raw operand substrings. -/
def matchHelper (s : List Char) : Option (String × List Char × List Char) :=
  let w := s.takeWhile wordChar
  let rest := s.dropWhile wordChar
  if w = [] then none
  else
    match helperWsSearch rest ((rest.takeWhile jsWs).length) with
    | some (l, r) => some (String.mk w, l, r)
    | none => none

/-- The comparison-operator alternation `(===|!==|==|!=|>=|<=|>|<)`,
tried in source order (longest first). -/
def opAt (s : List Char) : Option (String × List Char) :=
  if ['=', '=', '='].isPrefixOf s then some ("===", s.drop 3)
  else if ['!', '=', '='].isPrefixOf s then some ("!==", s.drop 3)
  else if ['=', '='].isPrefixOf s then some ("==", s.drop 2)
  else if ['!', '='].isPrefixOf s then some ("!=", s.drop 2)
  else if ['>', '='].isPrefixOf s then some (">=", s.drop 2)
  else if ['<', '='].isPrefixOf s then some ("<=", s.drop 2)
  else if ['>'].isPrefixOf s then some (">", s.drop 1)
  else if ['<'].isPrefixOf s then some ("<", s.drop 1)
  else none

/-- Backtracking search for the second greedy `\s*` of the comparison
regex: drop lengths from `k` down to 0; the right operand must be a
non-empty line. -/
def rightOperandSearch (after : List Char) : ℕ → Option (List Char)
  | 0 => if after ≠ [] ∧ after.all dotOk then some after else none
  | k + 1 =>
    let r := after.drop (k + 1)
    if r ≠ [] ∧ r.all dotOk then some r else rightOperandSearch after k

/-- Matcher for `\s*(op)\s*(.+)$` anchored at `s` (the part of the
comparison regex after the lazy left operand).  The first `\s*` is
effectively the full whitespace run, since no operator begins with a
whitespace character. -/
def compTail (s : List Char) : Option (String × List Char) :=
  let j := (s.takeWhile jsWs).length
  match opAt (s.drop j) with
  | some (op, after) =>
    match rightOperandSearch after ((after.takeWhile jsWs).length) with
    | some r => some (op, r)
    | none => none
  | none => none

/-- Matcher for `/^(.+?)\s*(===|!==|==|!=|>=|<=|>|<)\s*(.+)$/`:
lazy left operand, then operator and right operand via `compTail`. -/
def matchComp : List Char → Option (List Char × String × List Char)
  | [] => none
  | c :: rest =>
    if ¬ dotOk c then none
    else
      match compTail rest with
      | some (op, r) => some ([c], op, r)
      | none => (matchComp rest).map (fun p => (c :: p.1, p.2.1, p.2.2))

/-- The character class `/[<>=!&|()]/` used for the bare-variable check. -/
def hasSpecialChar (s : List Char) : Bool :=
  s.any (fun c =>
    c = '<' ∨ c = '>' ∨ c = '=' ∨ c = '!' ∨ c = '&' ∨ c = '|' ∨ c = '(' ∨ c = ')')

/-- `TemplateEngine.evaluateCondition`, fuelled (the source recurses
through the public, exception-catching method for `&&`/`||` parts and
negation; the fuel bounds that recursion).  The result is `.error` when
the corresponding JavaScript execution would throw inside the `try`
block, and `.ok` with the computed boolean otherwise. -/
def evalCondAux (vars : Ctx) : ℕ → String → Except String Bool
  | 0, _ => .error "recursion fuel exhausted"
  | fuel + 1, condition =>
    -- recursive call through the public method: a thrown condition is false
    let recCond := fun (p : List Char) =>
      match evalCondAux vars fuel (String.mk (jsTrimL p)) with
      | .ok b => b
      | .error _ => false
    let clean0 := jsTrimL condition.data
    -- strip one layer of wrapping parentheses
    let clean :=
      if clean0.head? = some '(' ∧ clean0.getLast? = some ')' then
        jsTrimL ((clean0.drop 1).dropLast)
      else clean0
    -- everything after the helper-function check
    let afterHelper : Unit → Except String Bool := fun _ =>
      if ¬ hasSpecialChar clean then
        -- simple variable existence check
        match evaluateExpression (String.mk clean) vars with
        | .ok v => .ok (isTruthy v)
        | .error m => .error m
      else
        match matchComp clean with
        | some (l, op, r) =>
          match evaluateExpression (String.mk (jsTrimL l)) vars with
          | .error m => .error m
          | .ok lv =>
            match evaluateExpression (String.mk (jsTrimL r)) vars with
            | .error m => .error m
            | .ok rv =>
              match op with
              | "===" => .ok (jsvalBeq lv rv)
              | "!==" => .ok (!jsvalBeq lv rv)
              | "==" => .ok (jsLooseEq 4 lv rv)
              | "!=" => .ok (!jsLooseEq 4 lv rv)
              | ">=" => .ok (jsGeB lv rv)
              | "<=" => .ok (jsLeB lv rv)
              | ">" => .ok (jsGtB lv rv)
              | _ => .ok (jsLtB lv rv)
        | none =>
          if containsSeq ['&', '&'] clean then
            .ok ((splitOnSeq ['&', '&'] clean).all recCond)
          else if containsSeq ['|', '|'] clean then
            .ok ((splitOnSeq ['|', '|'] clean).any recCond)
          else
            match clean with
            | '!' :: restNeg => .ok (!(recCond restNeg))
            | _ =>
              -- default: treat as variable existence check
              match evaluateExpression (String.mk clean) vars with
              | .ok v => .ok (isTruthy v)
              | .error m => .error m
    -- helper functions eq/ne/gt/lt/gte/lte: both operands are evaluated
    -- before the switch, also when the leading word is not a known helper
    match matchHelper clean with
    | some (w, l, r) =>
      match evaluateExpression (String.mk (jsTrimL l)) vars with
      | .error m => .error m
      | .ok lv =>
        match evaluateExpression (String.mk (jsTrimL r)) vars with
        | .error m => .error m
        | .ok rv =>
          match w with
          | "eq" => .ok (jsvalBeq lv (parseValue rv))
          | "ne" => .ok (!jsvalBeq lv (parseValue rv))
          | "gt" => .ok (jsGtB lv (parseValue rv))
          | "lt" => .ok (jsLtB lv (parseValue rv))
          | "gte" => .ok (jsGeB lv (parseValue rv))
          | "lte" => .ok (jsLeB lv (parseValue rv))
          | _ => afterHelper ()
    | none => afterHelper ()

/-- The public `evaluateCondition` at a given fuel: the surrounding
`try`/`catch` turns a thrown evaluation into `false`. -/
def evaluateConditionF (fuel : ℕ) (condition : String) (vars : Ctx) : Bool :=
  match evalCondAux vars fuel condition with
  | .ok b => b
  | .error _ => false

/-- `TemplateEngine.evaluateCondition` at its natural fuel. -/
def evaluateCondition (condition : String) (vars : Ctx) : Bool :=
  evaluateConditionF (condition.length + 1) condition vars

/-- A template variable declaration (`PromptVariable` in types/prompt.ts).
An absent `default` is modelled by `JSVal.undef`, matching the source's
`templateVar.default !== undefined` test.  The `validation` object is
carried opaquely; the engine never reads it. -/
structure PromptVariable where
  name : String
  type : String
  description : String
  required : Bool
  default : JSVal
  validation : JSVal
deriving Repr

/-- The replacement callback of `processVariables` for one placeholder
whose raw captured expression is `varExpression`: returns the replacement
text together with the error and warning entries it pushes. -/
def substituteVariable (varExpression : String) (vars : Ctx) (tvs : List PromptVariable) :
    String × List String × List String :=
  let trimmed := jsTrim varExpression
  match evaluateExpression trimmed vars with
  | .error msg =>
    ("[ERROR: " ++ trimmed ++ "]",
     ["Error processing variable '" ++ trimmed ++ "': " ++ msg], [])
  | .ok v =>
    match v with
    | .undef =>
      match tvs.find? (fun tv => tv.name = trimmed) with
      | some tv =>
        if tv.required then
          ("[MISSING: " ++ trimmed ++ "]",
           ["Required variable '" ++ trimmed ++ "' is missing"], [])
        else
          match tv.default with
          | .undef => ("", [], ["Undefined variable '" ++ trimmed ++ "', using empty string"])
          | d => (jsToString d, [], ["Using default value for variable '" ++ trimmed ++ "'"])
      | none => ("", [], ["Undefined variable '" ++ trimmed ++ "', using empty string"])
    | .null =>
      match tvs.find? (fun tv => tv.name = trimmed) with
      | some tv =>
        if tv.required then
          ("[MISSING: " ++ trimmed ++ "]",
           ["Required variable '" ++ trimmed ++ "' is missing"], [])
        else
          match tv.default with
          | .undef => ("", [], ["Undefined variable '" ++ trimmed ++ "', using empty string"])
          | d => (jsToString d, [], ["Using default value for variable '" ++ trimmed ++ "'"])
      | none => ("", [], ["Undefined variable '" ++ trimmed ++ "', using empty string"])
    | _ => (jsToString v, [], [])

/-- Scanner for the substitution pass
`content.replace(/\{\{(?!#|\/|\^)([^}]+)\}\}/g, callback)`: a match needs
`{{`, a first inner character other than `#`, `/`, `^`, a non-empty run
of non-`}` characters and a closing `}}`; on failure the scan advances
one character (so the second `{` is revisited), mirroring the regex
engine's resume behaviour. -/
def substVarsGo (vars : Ctx) (tvs : List PromptVariable) :
    ℕ → List Char → List Char × List String × List String
  | 0, s => (s, [], [])
  | fuel + 1, s =>
    match s with
    | [] => ([], [], [])
    | c :: rest =>
      if ['{', '{'].isPrefixOf (c :: rest) then
        let inner := (c :: rest).drop 2
        let run := inner.takeWhile (fun d => d ≠ '}')
        let rest2 := inner.dropWhile (fun d => d ≠ '}')
        if run ≠ [] ∧ run.head? ≠ some '#' ∧ run.head? ≠ some '/' ∧ run.head? ≠ some '^' ∧
            rest2.take 2 = ['}', '}'] then
          let rep := substituteVariable (String.mk run) vars tvs
          let next := substVarsGo vars tvs fuel (rest2.drop 2)
          (rep.1.data ++ next.1, rep.2.1 ++ next.2.1, rep.2.2 ++ next.2.2)
        else
          -- no match at this position: emit one character and resume
          let next := substVarsGo vars tvs fuel rest
          (c :: next.1, next.2.1, next.2.2)
      else
        let next := substVarsGo vars tvs fuel rest
        (c :: next.1, next.2.1, next.2.2)

/-- `TemplateEngine.processVariables`. -/
def processVariables (content : String) (vars : Ctx) (tvs : List PromptVariable) :
    String × List String × List String :=
  let r := substVarsGo vars tvs (content.data.length + 1) content.data
  (String.mk r.1, r.2.1, r.2.2)

/-- Matcher for the conditional-tag suffix `\s+([^}]+)\}\}`: at least one
whitespace character, then the greedy non-`}` capture, then `}}`.
When the whole non-`}` run is whitespace, backtracking leaves its last
character as the capture. -/
def parseCondHeader (s : List Char) : Option (String × List Char) :=
  let total := s.takeWhile (fun c => c ≠ '}')
  let rest := s.dropWhile (fun c => c ≠ '}')
  let headWs : Bool := match s with | c :: _ => jsWs c | [] => false
  if headWs ∧ 2 ≤ total.length ∧ rest.take 2 = ['}', '}'] then
    let g := total.dropWhile jsWs
    let g := if g = [] then [(total.getLast?).getD ' '] else g
    some (String.mk g, rest.drop 2)
  else none

/-- First occurrence of `pat` in `s`: the prefix before it and the suffix
after it. -/
def findSeq (pat : List Char) : List Char → Option (List Char × List Char)
  | [] => none
  | c :: rest =>
    if pat.isPrefixOf (c :: rest) then some ([], (c :: rest).drop pat.length)
    else (findSeq pat rest).map (fun p => (c :: p.1, p.2))

/-- Combined matcher/scanner for the tail
`(?:\{\{else if\s+([^}]+)\}\}([\s\S]*?))*(?:\{\{else\}\}([\s\S]*?))?\{\{\/if\}\}`
of the chain regex.  In match mode (`matchMode = true`) it is anchored at
`s` and returns the suffix after the final `\{\{/if\}\}`; the three
alternatives have mutually exclusive literal prefixes, so the
backtracking preference order (more else-if iterations first, then the
optional else, then the terminator) reduces to a prefix dispatch.  In
scan mode it finds the shortest prefix after which match mode completes
(the lazy `([\s\S]*?)` contents). -/
def elfRun : ℕ → Bool → List Char → Option (List Char)
  | 0, _, _ => none
  | fuel + 1, true, s =>
    if ['{', '{', 'e', 'l', 's', 'e', ' ', 'i', 'f'].isPrefixOf s then
      match parseCondHeader (s.drop 9) with
      | some (_, after) => elfRun fuel false after
      | none => none
    else if ['{', '{', 'e', 'l', 's', 'e', '}', '}'].isPrefixOf s then
      match findSeq ['{', '{', '/', 'i', 'f', '}', '}'] (s.drop 8) with
      | some (_, after) => some after
      | none => none
    else if ['{', '{', '/', 'i', 'f', '}', '}'].isPrefixOf s then
      some (s.drop 7)
    else none
  | fuel + 1, false, s =>
    match elfRun fuel true s with
    | some r => some r
    | none =>
      match s with
      | [] => none
      | _ :: rest => elfRun fuel false rest

/-- Lazy scan for the chain-tail matcher (scan mode of `elfRun`). -/
def scanELF (fuel : ℕ) (s : List Char) : Option (List Char) :=
  elfRun fuel false s

/-- Kinds of chain branches collected by `processIfElseIfChain`. -/
inductive ChainKind where
  | cif : ChainKind
  | celseif : ChainKind
  | celse : ChainKind
deriving Repr, DecidableEq

/-- One parsed branch of an if/else-if/else chain. -/
structure ChainPart where
  kind : ChainKind
  cond : String
  content : String
deriving Repr

/-- Matcher for `/^\{\{#if\s+([^}]+)\}\}([\s\S]*?)(?=\{\{else|$)/`:
the lazy content stops at the first `\{\{else` or, failing that, extends
to the end of the string (the `$` alternative of the lookahead).
Returns (raw condition capture, content, unconsumed suffix). -/
def chainIfSplit (s : List Char) : Option (String × List Char × List Char) :=
  match s with
  | '{' :: '{' :: '#' :: 'i' :: 'f' :: rest =>
    match parseCondHeader rest with
    | some (cond, after) =>
      match findSeq ['{', '{', 'e', 'l', 's', 'e'] after with
      | some (content, _) => some (cond, content, after.drop content.length)
      | none => some (cond, after, [])
    | none => none
  | _ => none

/-- The else-if extraction loop of `processIfElseIfChain`
(`/^\{\{else if\s+([^}]+)\}\}([\s\S]*?)(?=\{\{else|$)/` applied
repeatedly to the anchored remainder). -/
def chainElseIfLoop : ℕ → List Char → List ChainPart × List Char
  | 0, s => ([], s)
  | fuel + 1, s =>
    if ['{', '{', 'e', 'l', 's', 'e', ' ', 'i', 'f'].isPrefixOf s then
      match parseCondHeader (s.drop 9) with
      | some (cond, after) =>
        let content :=
          match findSeq ['{', '{', 'e', 'l', 's', 'e'] after with
          | some (c, _) => c
          | none => after
        let rest := after.drop content.length
        let next := chainElseIfLoop fuel rest
        (ChainPart.mk .celseif (jsTrim cond) (String.mk content) :: next.1, next.2)
      | none => ([], s)
    else ([], s)

/-- Matcher for `/^\{\{else\}\}([\s\S]*?)\{\{\/if\}\}$/`: anchored at both
ends, so the content is everything between the `\{\{else\}\}` prefix and
the final `\{\{/if\}\}` suffix. -/
def chainElseMatch (s : List Char) : Option String :=
  if ['{', '{', 'e', 'l', 's', 'e', '}', '}'].isPrefixOf s ∧
      ['{', '{', '/', 'i', 'f', '}', '}'].isSuffixOf s ∧ 15 ≤ s.length then
    some (String.mk ((s.drop 8).take (s.length - 15)))
  else none

/-- Selection loop of `processIfElseIfChain`: the first part that is the
else part or whose condition is truthy. -/
def chainSelect (vars : Ctx) (parts : List ChainPart) : String :=
  match parts.find? (fun p => (p.kind = ChainKind.celse : Bool) || evaluateCondition p.cond vars) with
  | some p => p.content
  | none => ""

/-- `TemplateEngine.processIfElseIfChain`. -/
def processIfElseIfChain (m : String) (vars : Ctx) : String :=
  let s := m.data
  let init :=
    match chainIfSplit s with
    | some (cond, content, rest) => ([ChainPart.mk .cif (jsTrim cond) (String.mk content)], rest)
    | none => (([] : List ChainPart), s)
  let loop := chainElseIfLoop (init.2.length + 1) init.2
  let parts :=
    match chainElseMatch loop.2 with
    | some c => init.1 ++ loop.1 ++ [ChainPart.mk .celse "" c]
    | none => init.1 ++ loop.1
  chainSelect vars parts

/-- Scanner for the first `processConditionals` pass (the chain regex
`/\{\{#if\s+([^}]+)\}\}([\s\S]*?)(?:\{\{else if\s+([^}]+)\}\}([\s\S]*?))*(?:\{\{else\}\}([\s\S]*?))?\{\{\/if\}\}/g`):
each match is handed as a string to `processIfElseIfChain` and the scan
resumes after it; replacements are not rescanned. -/
def pass1Go (vars : Ctx) : ℕ → List Char → List Char
  | 0, s => s
  | fuel + 1, s =>
    match s with
    | [] => []
    | c :: rest =>
      if ['{', '{', '#', 'i', 'f'].isPrefixOf (c :: rest) then
        let tag := (c :: rest).drop 5
        match parseCondHeader tag with
        | some (_, after) =>
          match scanELF (4 * after.length + 8) after with
          | some restAfter =>
            let consumed := after.take (after.length - restAfter.length)
            let header := tag.take (tag.length - after.length)
            let m := ['{', '{', '#', 'i', 'f'] ++ header ++ consumed
            (processIfElseIfChain (String.mk m) vars).data ++ pass1Go vars fuel restAfter
          | none => c :: pass1Go vars fuel rest
        | none => c :: pass1Go vars fuel rest
      else c :: pass1Go vars fuel rest

/-- Scanner for the second pass
`/\{\{#if\s+([^}]+)\}\}([\s\S]*?)\{\{#else\}\}([\s\S]*?)\{\{\/if\}\}/g`. -/
def pass2Go (vars : Ctx) : ℕ → List Char → List Char
  | 0, s => s
  | fuel + 1, s =>
    match s with
    | [] => []
    | c :: rest =>
      if ['{', '{', '#', 'i', 'f'].isPrefixOf (c :: rest) then
        match parseCondHeader ((c :: rest).drop 5) with
        | some (cond, after) =>
          match findSeq ['{', '{', '#', 'e', 'l', 's', 'e', '}', '}'] after with
          | some (ifContent, afterElse) =>
            match findSeq ['{', '{', '/', 'i', 'f', '}', '}'] afterElse with
            | some (elseContent, restAfter) =>
              let chosen := if evaluateCondition (jsTrim cond) vars then ifContent else elseContent
              chosen ++ pass2Go vars fuel restAfter
            | none => c :: pass2Go vars fuel rest
          | none => c :: pass2Go vars fuel rest
        | none => c :: pass2Go vars fuel rest
      else c :: pass2Go vars fuel rest

/-- Scanner for the third pass
`/\{\{#if\s+([^}]+)\}\}([\s\S]*?)\{\{\/if\}\}/g`. -/
def pass3Go (vars : Ctx) : ℕ → List Char → List Char
  | 0, s => s
  | fuel + 1, s =>
    match s with
    | [] => []
    | c :: rest =>
      if ['{', '{', '#', 'i', 'f'].isPrefixOf (c :: rest) then
        match parseCondHeader ((c :: rest).drop 5) with
        | some (cond, after) =>
          match findSeq ['{', '{', '/', 'i', 'f', '}', '}'] after with
          | some (ifContent, restAfter) =>
            let chosen := if evaluateCondition (jsTrim cond) vars then ifContent else []
            chosen ++ pass3Go vars fuel restAfter
          | none => c :: pass3Go vars fuel rest
        | none => c :: pass3Go vars fuel rest
      else c :: pass3Go vars fuel rest

/-- Scanner for the fourth pass
`/\{\{#unless\s+([^}]+)\}\}([\s\S]*?)\{\{\/unless\}\}/g`. -/
def pass4Go (vars : Ctx) : ℕ → List Char → List Char
  | 0, s => s
  | fuel + 1, s =>
    match s with
    | [] => []
    | c :: rest =>
      if ['{', '{', '#', 'u', 'n', 'l', 'e', 's', 's'].isPrefixOf (c :: rest) then
        match parseCondHeader ((c :: rest).drop 9) with
        | some (cond, after) =>
          match findSeq ['{', '{', '/', 'u', 'n', 'l', 'e', 's', 's', '}', '}'] after with
          | some (content, restAfter) =>
            let chosen := if evaluateCondition (jsTrim cond) vars then [] else content
            chosen ++ pass4Go vars fuel restAfter
          | none => c :: pass4Go vars fuel rest
        | none => c :: pass4Go vars fuel rest
      else c :: pass4Go vars fuel rest

/-- `TemplateEngine.processConditionals`: the four replacement passes in
source order. -/
def processConditionals (content : String) (vars : Ctx) : String :=
  let s1 := pass1Go vars (content.data.length + 1) content.data
  let s2 := pass2Go vars (s1.length + 1) s1
  let s3 := pass3Go vars (s2.length + 1) s2
  let s4 := pass4Go vars (s3.length + 1) s3
  String.mk s4

/-- One blank-line run rewrite of the cleanup regex
`/\n\s*\n\s*\n/g`: a maximal whitespace run containing at least three
newlines is matched from its first to its last newline (greedy `\s*`
with backtracking) and that span is replaced by two newlines. -/
def collapseRun (run : List Char) : List Char :=
  if 3 ≤ run.count '\n' then
    (run.takeWhile (fun c => c ≠ '\n')) ++
      '\n' :: '\n' :: ((run.reverse.takeWhile (fun c => c ≠ '\n')).reverse)
  else run

/-- Scanner for `content.replace(/\n\s*\n\s*\n/g, '\n\n')`: processed
maximal whitespace run by maximal whitespace run. -/
def collapseF : ℕ → List Char → List Char
  | 0, s => s
  | fuel + 1, s =>
    match s with
    | [] => []
    | c :: rest =>
      if jsWs c then
        collapseRun (c :: rest.takeWhile jsWs) ++ collapseF fuel (rest.dropWhile jsWs)
      else c :: collapseF fuel rest

/-- The blank-line collapse at its natural fuel. -/
def collapse (s : List Char) : List Char := collapseF (s.length + 1) s

/-- `content.replace(/^\s*\n/, '')`: if the leading whitespace run
contains a newline, drop everything up to and including its last
newline. -/
def stripLeadNl (s : List Char) : List Char :=
  let run := s.takeWhile jsWs
  if run.contains '\n' then
    ((run.reverse.takeWhile (fun c => c ≠ '\n')).reverse) ++ s.dropWhile jsWs
  else s

/-- `content.replace(/\s*$/, '')`: remove the trailing whitespace run. -/
def dropTrailWs (s : List Char) : List Char :=
  (s.reverse.dropWhile jsWs).reverse

/-- `TemplateEngine.cleanupTemplate`: collapse runs of blank lines,
strip a leading blank prefix, strip trailing whitespace, trim. -/
def cleanupTemplate (content : String) : String :=
  String.mk (jsTrimL (dropTrailWs (stripLeadNl (collapse content.data))))

/-- The record returned by `TemplateEngine.processTemplate`. -/
structure RenderResult where
  content : String
  errors : List String
  warnings : List String
deriving Repr

/-- `TemplateEngine.processTemplate`: conditionals, then variable
substitution, then cleanup.  The surrounding `try`/`catch` of the source
is unreachable in this model because every pass is total (per-placeholder
and per-condition failures are already caught locally). -/
def processTemplate (template : String) (vars : Ctx) (tvs : List PromptVariable) :
    RenderResult :=
  let c1 := processConditionals template vars
  let r := processVariables c1 vars tvs
  { content := cleanupTemplate r.1, errors := r.2.1, warnings := r.2.2 }

/-- Scanner collecting the raw variable names of
`TemplateEngine.extractVariables` from substitution placeholders
(`/\{\{(?!#|\/|\^)([^}]+)\}\}/g`, root name before the first dot,
helper keywords excluded). -/
def extractVarsA : ℕ → List Char → List String
  | 0, _ => []
  | fuel + 1, s =>
    match s with
    | [] => []
    | '{' :: '{' :: rest =>
      let run := rest.takeWhile (fun c => c ≠ '}')
      let rest2 := rest.dropWhile (fun c => c ≠ '}')
      if run ≠ [] ∧ run.head? ≠ some '#' ∧ run.head? ≠ some '/' ∧ run.head? ≠ some '^' ∧
          rest2.take 2 = ['}', '}'] then
        let varName := (((splitOnSeq ['.'] (jsTrim (String.mk run)).data).map String.mk).headD "")
        if varName ∈ ["eq", "ne", "gt", "lt", "gte", "lte"] then
          extractVarsA fuel (rest2.drop 2)
        else
          varName :: extractVarsA fuel (rest2.drop 2)
      else extractVarsA fuel ('{' :: rest)
    | _ :: rest => extractVarsA fuel rest

/-- Is `c` one of the operator characters `[<>=!&|]`? -/
def opChar (c : Char) : Bool :=
  c = '<' ∨ c = '>' ∨ c = '=' ∨ c = '!' ∨ c = '&' ∨ c = '|'

/-- `condition.replace(/[<>=!&|]+/g, ' ')`: each maximal operator run
becomes a single space. -/
def replOpsF : ℕ → List Char → List Char
  | 0, s => s
  | fuel + 1, s =>
    match s with
    | [] => []
    | c :: rest =>
      if opChar c then ' ' :: replOpsF fuel (rest.dropWhile opChar)
      else c :: replOpsF fuel rest

/-- The operator-run replacement at its natural fuel. -/
def replOps (s : List Char) : List Char := replOpsF (s.length + 1) s

/-- `.replace(/["']/g, ' ')`. -/
def replQuotes (s : List Char) : List Char :=
  s.map (fun c => if c = '"' ∨ c = '\'' then ' ' else c)

/-- Attempt at one token of
`\b(?:true|false|null|undefined|\d+(?:\.\d+)?)\b` anchored at `s`,
assuming the left boundary already holds; returns the token length. -/
def keywordTokenAt (s : List Char) : Option ℕ :=
  let tryKw := fun (kw : List Char) =>
    if kw.isPrefixOf s ∧ ¬ ((s.drop kw.length).head?.any wordChar) then some kw.length else none
  match tryKw ['t', 'r', 'u', 'e'] with
  | some n => some n
  | none =>
  match tryKw ['f', 'a', 'l', 's', 'e'] with
  | some n => some n
  | none =>
  match tryKw ['n', 'u', 'l', 'l'] with
  | some n => some n
  | none =>
  match tryKw ['u', 'n', 'd', 'e', 'f', 'i', 'n', 'e', 'd'] with
  | some n => some n
  | none =>
    let ds := s.takeWhile isDigit
    if ds = [] then none
    else
      let afterInt := s.drop ds.length
      let n :=
        match afterInt with
        | '.' :: r =>
          let fs := r.takeWhile isDigit
          if fs = [] then ds.length else ds.length + 1 + fs.length
        | _ => ds.length
      if (s.drop n).head?.any wordChar then none else some n

/-- `.replace(/\b(?:true|false|null|undefined|\d+(?:\.\d+)?)\b/g, ' ')`:
scanning with the previous character's word-ness giving the left
boundary (boundaries are judged on the original string, as the regex
engine does). -/
def replTokens : ℕ → Bool → List Char → List Char
  | 0, _, s => s
  | fuel + 1, prevWord, s =>
    match s with
    | [] => []
    | c :: rest =>
      if ¬ prevWord then
        match keywordTokenAt (c :: rest) with
        | some n => ' ' :: replTokens fuel true ((c :: rest).drop n)
        | none => c :: replTokens fuel (wordChar c) rest
      else c :: replTokens fuel (wordChar c) rest

/-- Whitespace tokenisation (`.split(/\s+/)` with empty tokens removed by
the length filter). -/
def wsTokens : ℕ → List Char → List String
  | 0, _ => []
  | fuel + 1, s =>
    match s with
    | [] => []
    | c :: rest =>
      if jsWs c then wsTokens fuel rest
      else
        String.mk ((c :: rest).takeWhile (fun d => ¬ jsWs d)) ::
          wsTokens fuel ((c :: rest).dropWhile (fun d => ¬ jsWs d))

/-- `TemplateEngine.extractVariablesFromCondition`. -/
def extractVariablesFromCondition (condition : String) : List String :=
  let cleaned := replTokens (condition.length + 1) false (replQuotes (replOps condition.data))
  let words := (wsTokens (cleaned.length + 1) cleaned).filter (fun w =>
    0 < w.length ∧ ¬ (w.data.all (fun c => isDigit c ∨ c = '.')) ∧
      w ∉ ["and", "or", "not", "eq", "ne", "gt", "lt", "gte", "lte"])
  words.map (fun w => (((splitOnSeq ['.'] w.data).map String.mk).headD ""))

/-- Scanner for the conditional-tag pass of `extractVariables`
(`/\{\{#(?:if|unless)\s+([^}]+)\}\}/g`). -/
def extractVarsB : ℕ → List Char → List String
  | 0, _ => []
  | fuel + 1, s =>
    match s with
    | [] => []
    | '{' :: '{' :: '#' :: 'i' :: 'f' :: rest =>
      match parseCondHeader rest with
      | some (g, after) => extractVariablesFromCondition (jsTrim g) ++ extractVarsB fuel after
      | none => extractVarsB fuel ('{' :: '#' :: 'i' :: 'f' :: rest)
    | '{' :: '{' :: '#' :: 'u' :: 'n' :: 'l' :: 'e' :: 's' :: 's' :: rest =>
      match parseCondHeader rest with
      | some (g, after) => extractVariablesFromCondition (jsTrim g) ++ extractVarsB fuel after
      | none => extractVarsB fuel ('{' :: '#' :: 'u' :: 'n' :: 'l' :: 'e' :: 's' :: 's' :: rest)
    | _ :: rest => extractVarsB fuel rest

/-- Insertion-ordered deduplication (the `Set<string>` accumulation). -/
def dedup (xs : List String) : List String :=
  xs.foldl (fun acc x => if x ∈ acc then acc else acc ++ [x]) []

/-- `TemplateEngine.extractVariables`. -/
def extractVariables (template : String) : List String :=
  dedup (extractVarsA (template.length + 1) template.data ++
    extractVarsB (template.length + 1) template.data)

/-! ### The `.prompty` parser (`McpTemplateLoader.parsePromptyFile`) -/

/-- Join with a separator (`Array.prototype.join`). -/
def joinSeq (sep : List Char) : List (List Char) → List Char
  | [] => []
  | [p] => p
  | p :: q :: rest => p ++ sep ++ joinSeq sep (q :: rest)

/-- A `created`/`updated` field: `new Date(value)` when the frontmatter
field is truthy, `new Date()` (the current instant) otherwise. -/
inductive DateVal where
  | now : DateVal
  | ofVal : JSVal → DateVal
deriving Repr

/-- JavaScript `a || b`. -/
def jsOr (a b : JSVal) : JSVal :=
  if jsNativeTruthy a then a else b

/-- Property read `v.k` as an expression: throws on `null`/`undefined`
receivers, yields undefined for absent members (primitive receivers box
and have none of the accessed names). -/
def jsGetField (v : JSVal) (k : String) : Except String JSVal :=
  match v with
  | .obj fs => .ok ((ctxLookup fs k).getD .undef)
  | .arr xs => .ok (jsGetProp (.arr xs) k)
  | .undef =>
    .error ("TypeError: Cannot read properties of undefined (reading '" ++ k ++ "')")
  | .null =>
    .error ("TypeError: Cannot read properties of null (reading '" ++ k ++ "')")
  | _ => .ok (.undef)

/-- `path.basename(filePath, suffix)` for POSIX paths: the last `/`
component, with the suffix stripped when it is a proper suffix. -/
def pathBasename (p : String) (suffix : String) : String :=
  let comps := splitOnSeq ['/'] p.data
  let base := (comps.getLast?).getD []
  if suffix.data.isSuffixOf base ∧ base ≠ suffix.data then
    String.mk (base.take (base.length - suffix.length))
  else String.mk base

/-- The template record built by `parsePromptyFile` (a `PromptTemplate`
as constructed at runtime: the decoded YAML fields are untyped, so every
defaulted field carries a `JSVal`). -/
structure ParsedTemplate where
  name : JSVal
  description : JSVal
  version : JSVal
  authors : JSVal
  created : DateVal
  updated : DateVal
  category : JSVal
  tags : JSVal
  model : JSVal
  variables_ : JSVal
  sample : JSVal
  test_cases : JSVal
  content : String
  metrics : JSVal
  security : JSVal
deriving Repr

/-- The object-literal construction of `parsePromptyFile` (source lines
building the returned `PromptTemplate`): each optional field defaults via
`||`, `created`/`updated` via truthiness, fields are read in source
order (reads from a non-object decode result throw). -/
def buildTemplate (fm : JSVal) (templateContent : String) (filePath : String) :
    Except String ParsedTemplate := do
  let namev ← jsGetField fm "name"
  let descv ← jsGetField fm "description"
  let versv ← jsGetField fm "version"
  let authv ← jsGetField fm "authors"
  let crev ← jsGetField fm "created"
  let updv ← jsGetField fm "updated"
  let catv ← jsGetField fm "category"
  let tagv ← jsGetField fm "tags"
  let modv ← jsGetField fm "model"
  let varv ← jsGetField fm "variables"
  let samv ← jsGetField fm "sample"
  let tcv ← jsGetField fm "test_cases"
  let metv ← jsGetField fm "metrics"
  let secv ← jsGetField fm "security"
  .ok
    { name := jsOr namev (.str (pathBasename filePath ".prompty"))
      description := jsOr descv (.str "")
      version := jsOr versv (.str "1.0.0")
      authors := jsOr authv (.arr [.str "Unknown"])
      created := if jsNativeTruthy crev then .ofVal crev else .now
      updated := if jsNativeTruthy updv then .ofVal updv else .now
      category := jsOr catv (.str "general")
      tags := jsOr tagv (.arr [])
      model := jsOr modv (.obj
        [("preferred", .str "gpt-4o-mini"), ("temperature", .num (mkRat 7 10)),
         ("max_tokens", .num 1000)])
      variables_ := jsOr varv (.arr [])
      sample := jsOr samv (.obj [])
      test_cases := jsOr tcv (.arr [])
      content := templateContent
      metrics := jsOr metv (.obj
        [("usage_count", .num 0), ("avg_response_time", .num 0), ("success_rate", .num 1)])
      security := jsOr secv (.obj
        [("injection_protected", .bool true), ("sanitize_inputs", .bool true)]) }

/-- `McpTemplateLoader.parsePromptyFile`: split the document on `---`,
require at least three parts, decode the frontmatter (the external
js-yaml decoder is the `yamlLoad` parameter), rejoin everything from the
third part on with `---` and trim it as the body. -/
def parsePromptyFile (yamlLoad : String → JSVal) (content : String) (filePath : String) :
    Except String ParsedTemplate :=
  let parts := splitOnSeq ['-', '-', '-'] content.data
  if parts.length < 3 then .error "Invalid .prompty file format"
  else
    let fm := yamlLoad (String.mk (parts.getD 1 []))
    let templateContent := jsTrim (String.mk (joinSeq ['-', '-', '-'] (parts.drop 2)))
    buildTemplate fm templateContent filePath

/-! ### The render-result record of the template manager -/

/-- The `ProcessedPrompt` record (types/prompt.ts): what the spec calls
`RenderResult`. -/
structure ProcessedPrompt where
  content : String
  variables_used : List String
  missing_variables : List String
  model_config : JSVal
  security_violations : List String
deriving Repr

/-- The typed view of a template as the manager consumes it. -/
structure TemplateRec where
  content : String
  variables_ : List PromptVariable
  model : JSVal

/-- Modelled from the spec: `promptManager.processTemplate`
(frontend/src/utils/promptManager.ts is not among the provided sources;
only its call sites and its result type `ProcessedPrompt` are).  Per
spec §3 and §4.1 the manager renders the body through the directive
engine and returns a `ProcessedPrompt` whose `variables_used` are the
statically extracted root names, whose `missing_variables` are the
required-and-referenced-but-unsupplied declaration names and whose
`security_violations` are a (possibly empty) list of diagnostic strings;
the spec prescribes no detection algorithm for the latter, so the model
reports none. -/
def promptManagerProcessTemplate (t : TemplateRec) (vars : Ctx) : ProcessedPrompt :=
  let r := processTemplate t.content vars t.variables_
  let used := extractVariables t.content
  { content := r.content
    variables_used := used
    missing_variables :=
      (t.variables_.filter (fun v =>
        v.required && used.contains v.name && (ctxLookup vars v.name).isNone)).map
        (fun v => v.name)
    model_config := t.model
    security_violations := [] }

/-! ### Predicates used by the verification -/

/-- A character that is neither `{` nor `}`. -/
def braceFreeC (c : Char) : Bool := c ≠ '{' ∧ c ≠ '}'

/-- A character list without braces. -/
def braceFreeL (s : List Char) : Bool := s.all braceFreeC

mutual

/-- A value none of whose nested strings contains a brace character (so
its `String(...)` form is brace-free). -/
def braceFreeVal : JSVal → Bool
  | .undef => true
  | .null => true
  | .bool _ => true
  | .num _ => true
  | .str s => braceFreeL s.data
  | .arr xs => braceFreeValList xs
  | .obj fs => braceFreeValFields fs

/-- `braceFreeVal` on every element. -/
def braceFreeValList : List JSVal → Bool
  | [] => true
  | x :: xs => braceFreeVal x && braceFreeValList xs

/-- `braceFreeVal` on every field value. -/
def braceFreeValFields : List (String × JSVal) → Bool
  | [] => true
  | (_, v) :: fs => braceFreeVal v && braceFreeValFields fs

end

/-- Fuelled well-formedness scanner: the body is brace-free literal text
interleaved with plain placeholders `{{expr}}` whose expression is
non-empty, brace-free and does not begin with `#`, `/` or `^`. -/
def wfBodyF : ℕ → List Char → Bool
  | 0, _ => false
  | fuel + 1, s =>
    match s with
    | [] => true
    | c :: rest =>
      if ['{', '{'].isPrefixOf (c :: rest) then
        let inner := (c :: rest).drop 2
        let run := inner.takeWhile (fun d => d ≠ '}')
        let rest2 := inner.dropWhile (fun d => d ≠ '}')
        if run ≠ [] ∧ run.head? ≠ some '#' ∧ run.head? ≠ some '/' ∧ run.head? ≠ some '^' ∧
            braceFreeL run ∧ rest2.take 2 = ['}', '}'] then
          wfBodyF fuel (rest2.drop 2)
        else false
      else if c ≠ '{' ∧ c ≠ '}' then wfBodyF fuel rest else false

/-- Well-formedness of a body at its natural fuel. -/
def wfBody (s : List Char) : Bool := wfBodyF (s.length + 1) s

/-- No all-whitespace infix of `s` contains three newlines (the invariant
established by the blank-line collapse of `cleanupTemplate`). -/
def NoTriple (s : List Char) : Prop :=
  ∀ t : List Char, t <:+: s → (∀ c ∈ t, jsWs c) → t.count '\n' ≤ 2

/-! ### Claim theorems -/

/-- Claim C1, counterexample: the claim quantifies over every template
body, but a body consisting of a stray directive marker is returned
verbatim — `render("\x7b\x7b/if\x7d\x7d", \x7b\x7d)` yields exactly
`"\x7b\x7b/if\x7d\x7d"`, which still contains `\x7b\x7b...\x7d\x7d`
placeholder syntax and is neither substituted nor replaced by a
`[MISSING: ...]`/`[ERROR: ...]` marker (the conditional passes only
match blocks opened by `\x7b\x7b#if`/`\x7b\x7b#unless`, and the variable
pass skips any span whose first inner character is `#`, `/` or `^`). -/
theorem c1_counterexample :
    (processTemplate "\x7b\x7b/if\x7d\x7d" [] []).content = "\x7b\x7b/if\x7d\x7d" ∧
    containsSeq ['{', '{'] (processTemplate "\x7b\x7b/if\x7d\x7d" [] []).content.data = true :=
  ⟨rfl, rfl⟩

/-- Claim C2 (code bug): evaluating the engine at the claim's own
scenario.  With `premium` false the output is `"Hello Ada!"` as the
claim states, but with `premium` true the output is
`"Hello VIP \x7b\x7b/if\x7d\x7dAda!"`, not `"Hello VIP Ada!"`: the chain
regex consumes the simple `if` block first, and `processIfElseIfChain`'s
content capture `([\s\S]*?)(?=\x7b\x7belse|$)` runs to the end of the
match when no `else` follows, so the kept branch content retains the
trailing `\x7b\x7b/if\x7d\x7d` marker. -/
theorem c2_simple_if_scenario :
    (processTemplate "Hello \x7b\x7b#if premium\x7d\x7dVIP \x7b\x7b/if\x7d\x7d\x7b\x7bname\x7d\x7d!"
        [("premium", .bool true), ("name", .str "Ada")] []).content =
      "Hello VIP \x7b\x7b/if\x7d\x7dAda!" ∧
    (processTemplate "Hello \x7b\x7b#if premium\x7d\x7dVIP \x7b\x7b/if\x7d\x7d\x7b\x7bname\x7d\x7d!"
        [("premium", .bool false), ("name", .str "Ada")] []).content = "Hello Ada!" ∧
    "Hello VIP \x7b\x7b/if\x7d\x7dAda!" ≠ "Hello VIP Ada!" :=
  ⟨rfl, rfl, by decide⟩

/-- Claim C3 (code bug): the claim's scenario holds — the chain with
`score = 80` renders exactly `"B"`, the first truthy branch — but the
general first-truthy-branch rule is violated by the same content-capture
slip as in C2 when the selected branch is the final one of a chain with
no else: `"\x7b\x7b#if a\x7d\x7dA\x7b\x7belse if b\x7d\x7dB\x7b\x7b/if\x7d\x7d"`
with `a` false and `b` true renders `"B\x7b\x7b/if\x7d\x7d"`, not
exactly the inner content `"B"`. -/
theorem c3_chain_selection :
    (processTemplate
        "\x7b\x7b#if score > 90\x7d\x7dA\x7b\x7belse if score > 70\x7d\x7dB\x7b\x7belse\x7d\x7dC\x7b\x7b/if\x7d\x7d"
        [("score", .num 80)] []).content = "B" ∧
    (processTemplate "\x7b\x7b#if a\x7d\x7dA\x7b\x7belse if b\x7d\x7dB\x7b\x7b/if\x7d\x7d"
        [("a", .bool false), ("b", .bool true)] []).content = "B\x7b\x7b/if\x7d\x7d" ∧
    "B\x7b\x7b/if\x7d\x7d" ≠ "B" :=
  ⟨rfl, rfl, by decide⟩

/-- Claim C6, counterexample: `eq "1" 1` evaluates false, not true.
The left operand is the string `"1"`, the right operand the number `1`;
`parseValue` only coerces string-valued right operands, so the strict
comparison `"1" === 1` is false. -/
theorem c6_counterexample : evaluateCondition "eq \"1\" 1" [] = false := rfl

/-- Claim C6 as amended: `eq "1" 1` evaluates false (the `parseValue`
coercion applies only to string-valued right operands, and it applies
unconditionally rather than only when the left operand is a non-string:
`eq 1 "1"` is true because the right operand string is coerced to a
number); `ne "a" "b"`, `gt 5 3` and `lte 3 3` evaluate true as the claim
states. -/
theorem c6_helper_comparisons :
    evaluateCondition "eq \"1\" 1" [] = false ∧
    evaluateCondition "eq 1 \"1\"" [] = true ∧
    evaluateCondition "ne \"a\" \"b\"" [] = true ∧
    evaluateCondition "gt 5 3" [] = true ∧
    evaluateCondition "lte 3 3" [] = true :=
  ⟨rfl, rfl, rfl, rfl, rfl⟩

/-- Claim C8, counterexample: parsing a document whose frontmatter omits
`category` yields category `"general"`, not `"custom"` as the claim
states (`frontmatter.category || 'general'` in the source). -/
theorem c8_counterexample :
    (parsePromptyFile (fun _ => JSVal.obj []) "---\nname: t\n---\nBody" "x.prompty").map
      ParsedTemplate.category = .ok (.str "general") ∧
    JSVal.str "general" ≠ JSVal.str "custom" :=
  ⟨rfl, by intro h; injection h with h2; exact absurd h2 (by decide)⟩

/-- Claim C8 as amended: when the decoded frontmatter object omits the
fields, `version` defaults to `"1.0.0"`, `category` defaults to
`"general"` (the claim said `"custom"`), the model defaults to
temperature `0.7` and `max_tokens` `1000` with preferred model
`gpt-4o-mini`, metrics default to zero usage count and a 100% success
rate, and the security flags default to enabled protection and enabled
sanitisation. -/
theorem c8_parse_defaults (fm : List (String × JSVal)) (tc fp : String)
    (hv : ctxLookup fm "version" = none) (hc : ctxLookup fm "category" = none)
    (hm : ctxLookup fm "model" = none) (hmet : ctxLookup fm "metrics" = none)
    (hsec : ctxLookup fm "security" = none) :
    (buildTemplate (.obj fm) tc fp).map ParsedTemplate.version = .ok (.str "1.0.0") ∧
    (buildTemplate (.obj fm) tc fp).map ParsedTemplate.category = .ok (.str "general") ∧
    (buildTemplate (.obj fm) tc fp).map ParsedTemplate.model =
      .ok (.obj [("preferred", .str "gpt-4o-mini"), ("temperature", .num (mkRat 7 10)),
        ("max_tokens", .num 1000)]) ∧
    (buildTemplate (.obj fm) tc fp).map ParsedTemplate.metrics =
      .ok (.obj [("usage_count", .num 0), ("avg_response_time", .num 0),
        ("success_rate", .num 1)]) ∧
    (buildTemplate (.obj fm) tc fp).map ParsedTemplate.security =
      .ok (.obj [("injection_protected", .bool true), ("sanitize_inputs", .bool true)]) := by
  simp [buildTemplate, jsGetField, hv, hc, hm, hmet, hsec, jsOr, jsNativeTruthy,
    Except.map, Except.bind, bind]

/-- Witness for C8: the defaults theorem applied to the empty
frontmatter object. -/
theorem c8_parse_defaults_witness :
    (buildTemplate (.obj []) "Body" "x.prompty").map ParsedTemplate.version =
      .ok (.str "1.0.0") ∧
    (buildTemplate (.obj []) "Body" "x.prompty").map ParsedTemplate.category =
      .ok (.str "general") ∧
    (buildTemplate (.obj []) "Body" "x.prompty").map ParsedTemplate.model =
      .ok (.obj [("preferred", .str "gpt-4o-mini"), ("temperature", .num (mkRat 7 10)),
        ("max_tokens", .num 1000)]) ∧
    (buildTemplate (.obj []) "Body" "x.prompty").map ParsedTemplate.metrics =
      .ok (.obj [("usage_count", .num 0), ("avg_response_time", .num 0),
        ("success_rate", .num 1)]) ∧
    (buildTemplate (.obj []) "Body" "x.prompty").map ParsedTemplate.security =
      .ok (.obj [("injection_protected", .bool true), ("sanitize_inputs", .bool true)]) :=
  c8_parse_defaults [] "Body" "x.prompty" rfl rfl rfl rfl rfl

/-- Claim C9, counterexample: rendering is not idempotent for every body
and mapping — when a substituted value itself contains placeholder
syntax, the second render substitutes it: body `"\x7b\x7ba\x7d\x7d"`
with `a = "\x7b\x7bb\x7d\x7d"`, `b = "x"` first renders to
`"\x7b\x7bb\x7d\x7d"` and re-rendering that content yields `"x"`. -/
theorem c9_counterexample :
    ¬ ((processTemplate
          ((processTemplate "\x7b\x7ba\x7d\x7d"
            [("a", JSVal.str "\x7b\x7bb\x7d\x7d"), ("b", JSVal.str "x")] []).content)
          [("a", JSVal.str "\x7b\x7bb\x7d\x7d"), ("b", JSVal.str "x")] []).content =
        (processTemplate "\x7b\x7ba\x7d\x7d"
          [("a", JSVal.str "\x7b\x7bb\x7d\x7d"), ("b", JSVal.str "x")] []).content) := by
  decide

/-- Claim C4: during substitution, a placeholder whose expression
resolves to undefined or null follows exactly the three-way policy of
the source — a matching required declaration records
`Required variable '<name>' is missing` and substitutes
`[MISSING: <name>]`; otherwise a declaration with a default records a
warning and substitutes the default's string form; otherwise the warning
`Undefined variable '<name>', using empty string` is recorded and the
empty string substituted. -/
theorem c4_missing_variable_policy (expr : String) (vars : Ctx) (tvs : List PromptVariable)
    (v : JSVal) (he : evaluateExpression (jsTrim expr) vars = .ok v)
    (hn : v = .undef ∨ v = .null) :
    (∀ tv, tvs.find? (fun t => t.name = jsTrim expr) = some tv → tv.required = true →
        substituteVariable expr vars tvs =
          ("[MISSING: " ++ jsTrim expr ++ "]",
           ["Required variable '" ++ jsTrim expr ++ "' is missing"], [])) ∧
    (∀ tv, tvs.find? (fun t => t.name = jsTrim expr) = some tv → tv.required = false →
        tv.default ≠ .undef →
        substituteVariable expr vars tvs =
          (jsToString tv.default, [],
           ["Using default value for variable '" ++ jsTrim expr ++ "'"])) ∧
    (∀ tv, tvs.find? (fun t => t.name = jsTrim expr) = some tv → tv.required = false →
        tv.default = .undef →
        substituteVariable expr vars tvs =
          ("", [], ["Undefined variable '" ++ jsTrim expr ++ "', using empty string"])) ∧
    (tvs.find? (fun t => t.name = jsTrim expr) = none →
        substituteVariable expr vars tvs =
          ("", [], ["Undefined variable '" ++ jsTrim expr ++ "', using empty string"])) := by
  rcases hn with rfl | rfl <;>
    exact ⟨fun tv hf hr => by simp [substituteVariable, he, hf, hr],
      fun tv hf hr hd => by
        cases hdv : tv.default
        case undef => exact absurd hdv hd
        all_goals simp [substituteVariable, he, hf, hr, hdv],
      fun tv hf hr hd => by simp [substituteVariable, he, hf, hr, hd],
      fun hf => by simp [substituteVariable, he, hf]⟩

/-- Witness for C4: the required branch of the policy at a concrete
placeholder (`x` declared required, unsupplied). -/
theorem c4_missing_variable_policy_witness :
    substituteVariable "x" [] [⟨"x", "string", "", true, .undef, .undef⟩] =
      ("[MISSING: x]", ["Required variable 'x' is missing"], []) :=
  (c4_missing_variable_policy "x" [] [⟨"x", "string", "", true, .undef, .undef⟩] .undef rfl
    (Or.inl rfl)).1 ⟨"x", "string", "", true, .undef, .undef⟩ rfl rfl

/-- Claim C5: render never throws — every pass of the model is a total
function, so `processTemplate` always returns a `RenderResult`; this
theorem captures the two local-catch behaviours the claim describes:
an exception while resolving one placeholder is caught in the
substitution callback, recorded as
`Error processing variable '<name>': <cause>` and replaced by
`[ERROR: <name>]`, and an exception inside `evaluateCondition` makes the
condition evaluate to false. -/
theorem c5_local_failure_handling :
    (∀ (expr : String) (vars : Ctx) (tvs : List PromptVariable) (msg : String),
        evaluateExpression (jsTrim expr) vars = .error msg →
        substituteVariable expr vars tvs =
          ("[ERROR: " ++ jsTrim expr ++ "]",
           ["Error processing variable '" ++ jsTrim expr ++ "': " ++ msg], [])) ∧
    (∀ (fuel : ℕ) (cond : String) (vars : Ctx) (msg : String),
        evalCondAux vars fuel cond = .error msg → evaluateConditionF fuel cond vars = false) := by
  constructor
  · intro expr vars tvs msg he
    simp [substituteVariable, he]
  · intro fuel cond vars msg h
    simp [evaluateConditionF, h]

/-- Witness for C5: a genuinely throwing plain-data input — `a[0]` with
`a = null` passes the `typeof array === 'object'` guard and throws a
TypeError, which the substitution callback converts to an `[ERROR: ...]`
marker and `evaluateCondition` converts to false. -/
theorem c5_local_failure_handling_witness :
    substituteVariable "a[0]" [("a", JSVal.null)] [] =
      ("[ERROR: a[0]]",
       ["Error processing variable 'a[0]': TypeError: Cannot read properties of null (reading '0')"],
       []) ∧
    evaluateCondition "a[0]" [("a", JSVal.null)] = false :=
  ⟨c5_local_failure_handling.1 "a[0]" [("a", JSVal.null)] []
      "TypeError: Cannot read properties of null (reading '0')" rfl,
   c5_local_failure_handling.2 5 "a[0]" [("a", JSVal.null)]
      "TypeError: Cannot read properties of null (reading '0')" rfl⟩

/-- Claim C7 (spec-modelled `promptManager.processTemplate`): every
render call returns a `ProcessedPrompt` on which `content`,
`missing_variables` and `security_violations` are always readable — the
function is total — with `content` the directive engine's rendered text,
`variables_used` the statically extracted names, `security_violations` a
(possibly empty) diagnostic list, and `missing_variables` exactly the
declared-required-referenced-but-unsupplied names. -/
theorem c7_render_result_shape (t : TemplateRec) (vars : Ctx) :
    (promptManagerProcessTemplate t vars).content =
      (processTemplate t.content vars t.variables_).content ∧
    (promptManagerProcessTemplate t vars).variables_used = extractVariables t.content ∧
    (promptManagerProcessTemplate t vars).security_violations = [] ∧
    (∀ name : String, name ∈ (promptManagerProcessTemplate t vars).missing_variables ↔
      ∃ v ∈ t.variables_, v.name = name ∧ v.required = true ∧
        v.name ∈ extractVariables t.content ∧ ctxLookup vars v.name = none) := by
  refine ⟨rfl, rfl, rfl, fun name => ?_⟩
  simp only [promptManagerProcessTemplate, List.mem_map, List.mem_filter]
  constructor
  · rintro ⟨v, ⟨hv, hp⟩, rfl⟩
    simp only [Bool.and_eq_true, List.elem_iff, Option.isNone_iff_eq_none] at hp
    exact ⟨v, hv, rfl, hp.1.1, hp.1.2, hp.2⟩
  · rintro ⟨v, hv, rfl, hreq, hmem, hnone⟩
    refine ⟨v, ⟨hv, ?_⟩, rfl⟩
    simp only [Bool.and_eq_true, List.elem_iff, Option.isNone_iff_eq_none]
    exact ⟨⟨hreq, hmem⟩, hnone⟩

/-- The split scanner never returns an empty part list. -/
theorem splitOnSeqF_ne_nil (sep : List Char) (fuel : ℕ) (s : List Char) :
    splitOnSeqF sep fuel s ≠ [] := by
  cases fuel with
  | zero => simp [splitOnSeqF]
  | succ n =>
    cases s with
    | nil => simp [splitOnSeqF]
    | cons c rest =>
      simp only [splitOnSeqF]
      split
      · simp
      · split <;> simp

/-- Joining the parts of a split with the separator reconstructs the
original string (`parts.join(sep)` inverts `s.split(sep)`). -/
theorem joinSeq_splitOnSeqF (sep : List Char) :
    ∀ (fuel : ℕ) (s : List Char), s.length < fuel →
      joinSeq sep (splitOnSeqF sep fuel s) = s := by
  intro fuel
  induction fuel with
  | zero => intro s h; omega
  | succ n ih =>
    intro s hlen
    cases s with
    | nil => simp [splitOnSeqF, joinSeq]
    | cons c rest =>
      simp only [splitOnSeqF]
      split
      · rename_i hp
        obtain ⟨t, ht⟩ := List.isPrefixOf_iff_prefix.mp hp.2
        obtain ⟨k, hk⟩ : ∃ k, sep.length = k + 1 := by
          cases hsl : sep.length with
          | zero => exact absurd (List.length_eq_zero.mp hsl) hp.1
          | succ k => exact ⟨k, rfl⟩
        have hdrop : List.drop (sep.length - 1) rest = t := by
          have h1 : List.drop sep.length (c :: rest) = t := by
            rw [← ht, List.drop_left]
          rw [hk] at h1 ⊢
          simpa using h1
        have htlen : t.length < n := by
          have := congrArg List.length ht
          simp [List.length_append, hk] at this
          simp [List.length_cons] at hlen
          omega
        rw [hdrop]
        cases hps : splitOnSeqF sep n t with
        | nil => exact absurd hps (splitOnSeqF_ne_nil sep n t)
        | cons p ps =>
          have hjoin : joinSeq sep (splitOnSeqF sep n t) = t := ih t htlen
          rw [hps] at hjoin
          calc joinSeq sep ([] :: p :: ps) = [] ++ sep ++ joinSeq sep (p :: ps) := rfl
            _ = sep ++ t := by rw [hjoin]; simp
            _ = c :: rest := ht
      · rename_i hp
        have hrlen : rest.length < n := by simp [List.length_cons] at hlen; omega
        cases hps : splitOnSeqF sep n rest with
        | nil => exact absurd hps (splitOnSeqF_ne_nil sep n rest)
        | cons p ps =>
          have hjoin : joinSeq sep (splitOnSeqF sep n rest) = rest := ih rest hrlen
          rw [hps] at hjoin
          cases ps with
          | nil => simpa [joinSeq] using congrArg (c :: ·) hjoin
          | cons q qs =>
            calc joinSeq sep ((c :: p) :: q :: qs)
                = (c :: p) ++ sep ++ joinSeq sep (q :: qs) := rfl
              _ = c :: (p ++ sep ++ joinSeq sep (q :: qs)) := by simp
              _ = c :: joinSeq sep (p :: q :: qs) := rfl
              _ = c :: rest := by rw [hjoin]

/-- The `content` field of a successfully built template record is the
body text passed to the construction. -/
theorem buildTemplate_content (fm : JSVal) (tc fp : String) (t : ParsedTemplate)
    (h : buildTemplate fm tc fp = .ok t) : t.content = tc := by
  cases fm <;> simp [buildTemplate, jsGetField, Except.bind, bind] at h <;>
    subst h <;> rfl

/-- Claim C10: `parsePromptyFile` does not truncate a body containing
`---`; for every document whose split has at least three parts, the
parsed content is the whole text after the closing metadata delimiter
(trimmed) — the parts from the third on, rejoined with `---` — and those
parts exactly reconstruct the document. -/
theorem c10_body_preserved (yl : String → JSVal) (doc fp : String)
    (p0 p1 : List Char) (rest : List (List Char))
    (hsplit : splitOnSeq ['-', '-', '-'] doc.data = p0 :: p1 :: rest)
    (hne : rest ≠ []) (t : ParsedTemplate)
    (hp : parsePromptyFile yl doc fp = .ok t) :
    t.content = jsTrim (String.mk (joinSeq ['-', '-', '-'] rest)) ∧
    doc.data = p0 ++ ['-', '-', '-'] ++ p1 ++ ['-', '-', '-'] ++ joinSeq ['-', '-', '-'] rest := by
  have hrecon : joinSeq ['-', '-', '-'] (splitOnSeq ['-', '-', '-'] doc.data) = doc.data :=
    joinSeq_splitOnSeqF ['-', '-', '-'] (doc.data.length + 1) doc.data (Nat.lt_succ_self _)
  rw [hsplit] at hrecon
  obtain ⟨r, rs, rfl⟩ : ∃ r rs, rest = r :: rs := by
    cases rest with
    | nil => exact absurd rfl hne
    | cons r rs => exact ⟨r, rs, rfl⟩
  constructor
  · unfold parsePromptyFile at hp
    rw [hsplit] at hp
    simp only [List.length_cons] at hp
    rw [if_neg (by omega)] at hp
    exact buildTemplate_content _ _ _ _ hp
  · rw [← hrecon]
    show _ = p0 ++ ['-', '-', '-'] ++ p1 ++ ['-', '-', '-'] ++ joinSeq ['-', '-', '-'] (r :: rs)
    calc joinSeq ['-', '-', '-'] (p0 :: p1 :: r :: rs)
        = p0 ++ ['-', '-', '-'] ++ joinSeq ['-', '-', '-'] (p1 :: r :: rs) := rfl
      _ = p0 ++ ['-', '-', '-'] ++ (p1 ++ ['-', '-', '-'] ++ joinSeq ['-', '-', '-'] (r :: rs)) :=
          rfl
      _ = _ := by simp [List.append_assoc]

/-- Witness for C10: a concrete document whose body itself contains the
`---` delimiter; the parsed content keeps it intact. -/
theorem c10_body_preserved_witness :
    (parsePromptyFile (fun _ => JSVal.obj []) "---\nname: x\n---\nA\n---\nB" "t.prompty").map
      ParsedTemplate.content = .ok "A\n---\nB" := by
  have hp : parsePromptyFile (fun _ => JSVal.obj []) "---\nname: x\n---\nA\n---\nB" "t.prompty" =
      .ok
        { name := .str "t", description := .str "", version := .str "1.0.0",
          authors := .arr [.str "Unknown"], created := .now, updated := .now,
          category := .str "general", tags := .arr [],
          model := .obj [("preferred", .str "gpt-4o-mini"), ("temperature", .num (mkRat 7 10)),
            ("max_tokens", .num 1000)],
          variables_ := .arr [], sample := .obj [], test_cases := .arr [],
          content := "A\n---\nB",
          metrics := .obj [("usage_count", .num 0), ("avg_response_time", .num 0),
            ("success_rate", .num 1)],
          security := .obj [("injection_protected", .bool true),
            ("sanitize_inputs", .bool true)] } := rfl
  have h := c10_body_preserved (fun _ => JSVal.obj []) "---\nname: x\n---\nA\n---\nB" "t.prompty"
    [] ("\nname: x\n").data [("\nA\n").data, ("\nB").data] (by decide) (by decide) _ hp
  calc (parsePromptyFile (fun _ => JSVal.obj []) "---\nname: x\n---\nA\n---\nB" "t.prompty").map
        ParsedTemplate.content
      = .ok (jsTrim (String.mk (joinSeq ['-', '-', '-'] [("\nA\n").data, ("\nB").data]))) := by
        rw [hp]
        exact congrArg Except.ok h.1
    _ = .ok "A\n---\nB" := rfl

/-! ### Identity of the scanning passes on marker-free text -/

theorem containsSeq_cons_eq_false {pat : List Char} {c : Char} {rest : List Char}
    (h : containsSeq pat (c :: rest) = false) :
    pat.isPrefixOf (c :: rest) = false ∧ containsSeq pat rest = false := by
  simpa [containsSeq, Bool.or_eq_false_iff] using h

theorem isPrefixOf_of_prefix_isPrefixOf {p q s : List Char} (hpq : p <+: q)
    (h : q.isPrefixOf s = true) : p.isPrefixOf s = true :=
  List.isPrefixOf_iff_prefix.mpr (hpq.trans (List.isPrefixOf_iff_prefix.mp h))

theorem containsSeq_mono {p q s : List Char} (hpq : p <+: q)
    (h : containsSeq p s = false) : containsSeq q s = false := by
  induction s with
  | nil =>
    simp only [containsSeq] at h ⊢
    cases hq : List.isPrefixOf q []
    · rfl
    · exact absurd (isPrefixOf_of_prefix_isPrefixOf hpq hq) (by simp [h])
  | cons c rest ih =>
    obtain ⟨h1, h2⟩ := containsSeq_cons_eq_false h
    simp only [containsSeq, Bool.or_eq_false_iff]
    refine ⟨?_, ih h2⟩
    cases hq : List.isPrefixOf q (c :: rest)
    · rfl
    · exact absurd (isPrefixOf_of_prefix_isPrefixOf hpq hq) (by simp [h1])

/-- The chain pass leaves any text without `\x7b\x7b#` unchanged. -/
theorem pass1Go_id (vars : Ctx) :
    ∀ (fuel : ℕ) (s : List Char), containsSeq ['{', '{', '#'] s = false →
      pass1Go vars fuel s = s := by
  intro fuel
  induction fuel with
  | zero => intro s _; rfl
  | succ n ih =>
    intro s h
    cases s with
    | nil => rfl
    | cons c rest =>
      obtain ⟨h1, h2⟩ := containsSeq_cons_eq_false h
      have h5 : (['{', '{', '#', 'i', 'f'].isPrefixOf (c :: rest)) = false := by
        cases h5 : List.isPrefixOf ['{', '{', '#', 'i', 'f'] (c :: rest)
        · rfl
        · exact absurd (isPrefixOf_of_prefix_isPrefixOf
            (show ['{', '{', '#'] <+: ['{', '{', '#', 'i', 'f'] from ⟨['i', 'f'], rfl⟩) h5)
            (by simp [h1])
      simp only [pass1Go, h5, Bool.false_eq_true, if_false, List.cons.injEq, true_and]
      exact ih rest h2

/-- The two-branch pass leaves any text without `\x7b\x7b#` unchanged. -/
theorem pass2Go_id (vars : Ctx) :
    ∀ (fuel : ℕ) (s : List Char), containsSeq ['{', '{', '#'] s = false →
      pass2Go vars fuel s = s := by
  intro fuel
  induction fuel with
  | zero => intro s _; rfl
  | succ n ih =>
    intro s h
    cases s with
    | nil => rfl
    | cons c rest =>
      obtain ⟨h1, h2⟩ := containsSeq_cons_eq_false h
      have h5 : (['{', '{', '#', 'i', 'f'].isPrefixOf (c :: rest)) = false := by
        cases h5 : List.isPrefixOf ['{', '{', '#', 'i', 'f'] (c :: rest)
        · rfl
        · exact absurd (isPrefixOf_of_prefix_isPrefixOf
            (show ['{', '{', '#'] <+: ['{', '{', '#', 'i', 'f'] from ⟨['i', 'f'], rfl⟩) h5)
            (by simp [h1])
      simp only [pass2Go, h5, Bool.false_eq_true, if_false, List.cons.injEq, true_and]
      exact ih rest h2

/-- The simple-if pass leaves any text without `\x7b\x7b#` unchanged. -/
theorem pass3Go_id (vars : Ctx) :
    ∀ (fuel : ℕ) (s : List Char), containsSeq ['{', '{', '#'] s = false →
      pass3Go vars fuel s = s := by
  intro fuel
  induction fuel with
  | zero => intro s _; rfl
  | succ n ih =>
    intro s h
    cases s with
    | nil => rfl
    | cons c rest =>
      obtain ⟨h1, h2⟩ := containsSeq_cons_eq_false h
      have h5 : (['{', '{', '#', 'i', 'f'].isPrefixOf (c :: rest)) = false := by
        cases h5 : List.isPrefixOf ['{', '{', '#', 'i', 'f'] (c :: rest)
        · rfl
        · exact absurd (isPrefixOf_of_prefix_isPrefixOf
            (show ['{', '{', '#'] <+: ['{', '{', '#', 'i', 'f'] from ⟨['i', 'f'], rfl⟩) h5)
            (by simp [h1])
      simp only [pass3Go, h5, Bool.false_eq_true, if_false, List.cons.injEq, true_and]
      exact ih rest h2

/-- The unless pass leaves any text without `\x7b\x7b#` unchanged. -/
theorem pass4Go_id (vars : Ctx) :
    ∀ (fuel : ℕ) (s : List Char), containsSeq ['{', '{', '#'] s = false →
      pass4Go vars fuel s = s := by
  intro fuel
  induction fuel with
  | zero => intro s _; rfl
  | succ n ih =>
    intro s h
    cases s with
    | nil => rfl
    | cons c rest =>
      obtain ⟨h1, h2⟩ := containsSeq_cons_eq_false h
      have h9 : (['{', '{', '#', 'u', 'n', 'l', 'e', 's', 's'].isPrefixOf (c :: rest)) = false := by
        cases h9 : List.isPrefixOf ['{', '{', '#', 'u', 'n', 'l', 'e', 's', 's'] (c :: rest)
        · rfl
        · exact absurd (isPrefixOf_of_prefix_isPrefixOf
            (show ['{', '{', '#'] <+: ['{', '{', '#', 'u', 'n', 'l', 'e', 's', 's'] from
              ⟨['u', 'n', 'l', 'e', 's', 's'], rfl⟩) h9)
            (by simp [h1])
      simp only [pass4Go, h9, Bool.false_eq_true, if_false, List.cons.injEq, true_and]
      exact ih rest h2

/-- `processConditionals` leaves any text without `\x7b\x7b#` unchanged. -/
theorem processConditionals_id (vars : Ctx) (content : String)
    (h : containsSeq ['{', '{', '#'] content.data = false) :
    processConditionals content vars = content := by
  unfold processConditionals
  simp only [pass1Go_id vars _ _ h, pass2Go_id vars _ _ h, pass3Go_id vars _ _ h,
    pass4Go_id vars _ _ h]

/-- The substitution pass leaves any text without `\x7b\x7b` unchanged and
reports no diagnostics on it. -/
theorem substVarsGo_id (vars : Ctx) (tvs : List PromptVariable) :
    ∀ (fuel : ℕ) (s : List Char), containsSeq ['{', '{'] s = false →
      substVarsGo vars tvs fuel s = (s, [], []) := by
  intro fuel
  induction fuel with
  | zero => intro s _; rfl
  | succ n ih =>
    intro s h
    cases s with
    | nil => rfl
    | cons c rest =>
      obtain ⟨h1, h2⟩ := containsSeq_cons_eq_false h
      simp only [substVarsGo, h1, Bool.false_eq_true, if_false]
      rw [ih rest h2]

/-- `processVariables` leaves any text without `\x7b\x7b` unchanged. -/
theorem processVariables_id (content : String) (vars : Ctx) (tvs : List PromptVariable)
    (h : containsSeq ['{', '{'] content.data = false) :
    processVariables content vars tvs = (content, [], []) := by
  unfold processVariables
  rw [substVarsGo_id vars tvs _ _ h]

/-! ### Idempotence of `cleanupTemplate` -/

/-- The empty list satisfies the blank-line invariant. -/
theorem noTriple_nil : NoTriple [] := by
  intro t ht _
  have h0 : t = [] := List.sublist_nil.mp ht.sublist
  simp [h0]

/-- The blank-line invariant is inherited by infixes. -/
theorem NoTriple.of_infix {s t : List Char} (hs : NoTriple s) (h : t <:+: s) :
    NoTriple t :=
  fun u hu hws => hs u (hu.trans h) hws

/-- Prepending a non-whitespace character preserves the invariant. -/
theorem noTriple_cons_nonws {c : Char} {X : List Char} (hc : jsWs c = false)
    (hX : NoTriple X) : NoTriple (c :: X) := by
  intro t ht hws
  rcases List.infix_cons_iff.mp ht with hpre | hinf
  · cases t with
    | nil => simp
    | cons e t' =>
      have hm := hws e (by simp)
      rw [(List.cons_prefix_cons.mp hpre).1] at hm
      exact absurd hm (by simp [hc])
  · exact hX t hinf hws

/-- An all-whitespace prefix of `A ++ B` where `B` is empty or starts with
a non-whitespace character is already a prefix of `A`. -/
theorem ws_prefix_append {B : List Char}
    (hB : B = [] ∨ ∃ d B', B = d :: B' ∧ jsWs d = false) :
    ∀ (A t : List Char), t <+: A ++ B → (∀ c ∈ t, jsWs c = true) → t <+: A := by
  intro A
  induction A with
  | nil =>
    intro t ht hws
    rcases hB with rfl | ⟨d, B', rfl, hd⟩
    · simpa using ht
    · cases t with
      | nil => exact List.nil_prefix
      | cons e t' =>
        obtain ⟨rfl, _⟩ := List.cons_prefix_cons.mp (by simpa using ht)
        exact absurd (hws e (by simp)) (by simp [hd])
  | cons a A' ih =>
    intro t ht hws
    cases t with
    | nil => exact List.nil_prefix
    | cons e t' =>
      obtain ⟨rfl, ht'⟩ := List.cons_prefix_cons.mp (by simpa using ht)
      exact List.cons_prefix_cons.mpr ⟨rfl, ih t' ht' (fun c hc => hws c (by simp [hc]))⟩

/-- Appending a list satisfying the invariant after an all-whitespace block
with at most two newlines preserves the invariant, provided the suffix
starts (if at all) with a non-whitespace character. -/
theorem noTriple_append {B : List Char} (hB : NoTriple B)
    (hBh : B = [] ∨ ∃ d B', B = d :: B' ∧ jsWs d = false) :
    ∀ A : List Char, (∀ c ∈ A, jsWs c = true) → A.count '\n' ≤ 2 →
      NoTriple (A ++ B) := by
  intro A
  induction A with
  | nil => intro _ _; exact hB
  | cons a A' ih =>
    intro hA hcnt t ht hws
    rcases List.infix_cons_iff.mp ht with hpre | hinf
    · have hta : t <+: a :: A' := ws_prefix_append hBh (a :: A') t hpre hws
      calc t.count '\n' ≤ (a :: A').count '\n' := hta.sublist.count_le '\n'
        _ ≤ 2 := hcnt
    · exact ih (fun c hc => hA c (by simp [hc]))
        (le_trans ((List.sublist_cons_self a A').count_le '\n') hcnt) t hinf hws

/-- `takeWhile (· ≠ a)` contains no `a`. -/
theorem count_takeWhile_ne (a : Char) (l : List Char) :
    (l.takeWhile (fun c => c ≠ a)).count a = 0 := by
  rw [List.count_eq_zero]
  intro hmem
  have := List.mem_takeWhile_imp hmem
  simp at this

/-- `collapseRun` maps an all-whitespace run to an all-whitespace list. -/
theorem collapseRun_ws {run : List Char} (h : ∀ c ∈ run, jsWs c = true) :
    ∀ c ∈ collapseRun run, jsWs c = true := by
  intro c hc
  unfold collapseRun at hc
  split at hc
  · simp only [List.mem_append, List.mem_cons] at hc
    rcases hc with hc | hc | hc | hc
    · exact h c (List.Sublist.mem hc (List.takeWhile_prefix _).sublist)
    · rw [hc]; rfl
    · rw [hc]; rfl
    · rw [List.mem_reverse] at hc
      have := List.Sublist.mem hc (List.takeWhile_prefix _).sublist
      rw [List.mem_reverse] at this
      exact h c this
  · exact h c hc

/-- `collapseRun` leaves at most two newlines. -/
theorem collapseRun_count (run : List Char) : (collapseRun run).count '\n' ≤ 2 := by
  unfold collapseRun
  split
  · rw [List.count_append, count_takeWhile_ne, List.count_cons, List.count_cons,
      List.count_reverse, count_takeWhile_ne]
    simp
  · rename_i h
    omega

/-- `collapseF` on the empty list. -/
theorem collapseF_nil (fuel : ℕ) : collapseF fuel [] = [] := by
  cases fuel <;> rfl

/-- `collapseF` keeps a non-whitespace head. -/
theorem collapseF_cons_nonws (fuel : ℕ) (d : Char) (r : List Char)
    (hd : jsWs d = false) : ∃ X, collapseF fuel (d :: r) = d :: X := by
  cases fuel with
  | zero => exact ⟨r, rfl⟩
  | succ n => exact ⟨collapseF n r, by simp [collapseF, hd]⟩

/-- The head of a `dropWhile jsWs` residue is not whitespace. -/
theorem dropWhile_head_nonws :
    ∀ (l : List Char) {d : Char} {r : List Char},
      l.dropWhile jsWs = d :: r → jsWs d = false := by
  intro l
  induction l with
  | nil => intro d r h; simp at h
  | cons a l ih =>
    intro d r h
    rw [List.dropWhile_cons] at h
    split at h
    · exact ih h
    · rename_i ha
      cases h
      simpa using ha

/-- The blank-line collapse establishes the invariant. -/
theorem noTriple_collapseF :
    ∀ (fuel : ℕ) (s : List Char), s.length < fuel → NoTriple (collapseF fuel s) := by
  intro fuel
  induction fuel with
  | zero => intro s h; omega
  | succ n ih =>
    intro s hlen
    cases s with
    | nil =>
      rw [collapseF_nil]
      exact noTriple_nil
    | cons c rest =>
      simp only [collapseF]
      split
      · rename_i hws
        have hrun_ws : ∀ x ∈ c :: rest.takeWhile jsWs, jsWs x = true := by
          intro x hx
          rcases List.mem_cons.mp hx with rfl | hx'
          · exact hws
          · exact List.mem_takeWhile_imp hx'
        have hrest' : (rest.dropWhile jsWs).length < n := by
          have h1 := (List.dropWhile_sublist (l := rest) jsWs).length_le
          simp only [List.length_cons] at hlen
          omega
        have hBh : collapseF n (rest.dropWhile jsWs) = [] ∨
            ∃ d B', collapseF n (rest.dropWhile jsWs) = d :: B' ∧ jsWs d = false := by
          cases hdrop : rest.dropWhile jsWs with
          | nil => left; exact collapseF_nil n
          | cons d r =>
            have hd : jsWs d = false := dropWhile_head_nonws rest hdrop
            obtain ⟨X, hX⟩ := collapseF_cons_nonws n d r hd
            exact Or.inr ⟨d, X, hX, hd⟩
        exact noTriple_append (ih _ hrest') hBh _ (collapseRun_ws hrun_ws)
          (collapseRun_count _)
      · rename_i hws
        have hws' : jsWs c = false := by simpa using hws
        refine noTriple_cons_nonws hws' (ih rest ?_)
        simp only [List.length_cons] at hlen
        omega

/-- On a list already satisfying the invariant the collapse is the
identity. -/
theorem collapseF_id :
    ∀ (fuel : ℕ) (s : List Char), NoTriple s → collapseF fuel s = s := by
  intro fuel
  induction fuel with
  | zero => intro s _; rfl
  | succ n ih =>
    intro s hs
    cases s with
    | nil => rfl
    | cons c rest =>
      simp only [collapseF]
      split
      · rename_i hws
        have hpre : (c :: rest.takeWhile jsWs) <:+: (c :: rest) :=
          (List.cons_prefix_cons.mpr ⟨rfl, List.takeWhile_prefix jsWs⟩).isInfix
        have hws_run : ∀ x ∈ c :: rest.takeWhile jsWs, jsWs x = true := by
          intro x hx
          rcases List.mem_cons.mp hx with rfl | hx'
          · exact hws
          · exact List.mem_takeWhile_imp hx'
        have hcnt : (c :: rest.takeWhile jsWs).count '\n' ≤ 2 := hs _ hpre hws_run
        have hcr : collapseRun (c :: rest.takeWhile jsWs) = c :: rest.takeWhile jsWs := by
          unfold collapseRun
          rw [if_neg (by omega)]
        have hsuf : (rest.dropWhile jsWs) <:+: (c :: rest) :=
          ((List.dropWhile_suffix jsWs).trans (List.suffix_cons c rest)).isInfix
        rw [hcr, ih _ (NoTriple.of_infix hs hsuf), List.cons_append,
          List.takeWhile_append_dropWhile]
      · rw [ih rest (NoTriple.of_infix hs (List.suffix_cons c rest).isInfix)]

/-- Reassembling a list from the reverse take/drop decomposition. -/
theorem reverse_dropWhile_append_takeWhile (p : Char → Bool) (l : List Char) :
    (l.reverse.dropWhile p).reverse ++ (l.reverse.takeWhile p).reverse = l := by
  rw [← List.reverse_append, List.takeWhile_append_dropWhile, List.reverse_reverse]

/-- The leading-blank strip returns a suffix of its input. -/
theorem stripLeadNl_suffix (s : List Char) : stripLeadNl s <:+ s := by
  simp only [stripLeadNl]
  split
  · refine ⟨((s.takeWhile jsWs).reverse.dropWhile (fun c => c ≠ '\n')).reverse, ?_⟩
    rw [← List.append_assoc, reverse_dropWhile_append_takeWhile,
      List.takeWhile_append_dropWhile]
  · exact List.suffix_rfl

/-- The trailing-whitespace strip returns a prefix of its input. -/
theorem dropTrailWs_isPrefixOf (s : List Char) : dropTrailWs s <+: s := by
  unfold dropTrailWs
  obtain ⟨t, ht⟩ := List.dropWhile_suffix (l := s.reverse) jsWs
  exact ⟨t.reverse, by rw [← List.reverse_append, ht, List.reverse_reverse]⟩

/-- `trim` is the trailing strip of the leading strip. -/
theorem jsTrimL_eq_dropTrailWs (s : List Char) :
    jsTrimL s = dropTrailWs (s.dropWhile jsWs) := rfl

/-- `trim` returns an infix of its input. -/
theorem jsTrimL_isInfixOf (s : List Char) : jsTrimL s <:+: s := by
  rw [jsTrimL_eq_dropTrailWs]
  exact (dropTrailWs_isPrefixOf _).isInfix.trans (List.dropWhile_suffix jsWs).isInfix

/-- A nonempty trailing-strip result ends in a non-whitespace character. -/
theorem dropTrailWs_getLast {s : List Char} (hne : dropTrailWs s ≠ []) :
    ∃ d, (dropTrailWs s).getLast? = some d ∧ jsWs d = false := by
  unfold dropTrailWs at hne ⊢
  cases hd : s.reverse.dropWhile jsWs with
  | nil => rw [hd] at hne; simp at hne
  | cons d r =>
    refine ⟨d, ?_, dropWhile_head_nonws s.reverse hd⟩
    rw [List.getLast?_reverse]
    rfl

/-- A nonempty trimmed string starts with a non-whitespace character. -/
theorem jsTrimL_head {s : List Char} {d : Char} {r : List Char}
    (h : jsTrimL s = d :: r) : jsWs d = false := by
  rw [jsTrimL_eq_dropTrailWs] at h
  obtain ⟨t, ht⟩ := dropTrailWs_isPrefixOf (s.dropWhile jsWs)
  rw [h] at ht
  simp only [List.cons_append] at ht
  exact dropWhile_head_nonws s ht.symm

/-- A nonempty trimmed string ends in a non-whitespace character. -/
theorem jsTrimL_getLast {s : List Char} (hne : jsTrimL s ≠ []) :
    ∃ d, (jsTrimL s).getLast? = some d ∧ jsWs d = false := by
  rw [jsTrimL_eq_dropTrailWs] at hne ⊢
  exact dropTrailWs_getLast hne

/-- `dropWhile jsWs` is the identity when the head is not whitespace. -/
theorem dropWhile_id_of_head {s : List Char}
    (h : s = [] ∨ ∃ d r, s = d :: r ∧ jsWs d = false) : s.dropWhile jsWs = s := by
  rcases h with rfl | ⟨d, r, rfl, hd⟩
  · rfl
  · rw [List.dropWhile_cons, if_neg (by simp [hd])]

/-- `takeWhile jsWs` is empty when the head is not whitespace. -/
theorem takeWhile_nil_of_head {s : List Char}
    (h : s = [] ∨ ∃ d r, s = d :: r ∧ jsWs d = false) : s.takeWhile jsWs = [] := by
  rcases h with rfl | ⟨d, r, rfl, hd⟩
  · rfl
  · rw [List.takeWhile_cons, if_neg (by simp [hd])]

/-- The leading-blank strip is the identity when the head is not
whitespace. -/
theorem stripLeadNl_id {s : List Char}
    (h : s = [] ∨ ∃ d r, s = d :: r ∧ jsWs d = false) : stripLeadNl s = s := by
  simp only [stripLeadNl, takeWhile_nil_of_head h]
  rfl

/-- The trailing strip is the identity when the last character is not
whitespace. -/
theorem dropTrailWs_id {s : List Char}
    (h : s = [] ∨ ∃ d, s.getLast? = some d ∧ jsWs d = false) : dropTrailWs s = s := by
  unfold dropTrailWs
  have hrev : s.reverse = [] ∨ ∃ d r, s.reverse = d :: r ∧ jsWs d = false := by
    rcases h with rfl | ⟨d, hd, hws⟩
    · left; rfl
    · cases hr : s.reverse with
      | nil => left; rfl
      | cons e r =>
        refine Or.inr ⟨e, r, rfl, ?_⟩
        have hh : s.reverse.head? = some d := by rw [List.head?_reverse]; exact hd
        rw [hr] at hh
        simp only [List.head?_cons, Option.some.injEq] at hh
        rw [hh]
        exact hws
  rw [dropWhile_id_of_head hrev, List.reverse_reverse]

/-- `trim` is the identity when both ends are non-whitespace. -/
theorem jsTrimL_id {s : List Char}
    (hh : s = [] ∨ ∃ d r, s = d :: r ∧ jsWs d = false)
    (hl : s = [] ∨ ∃ d, s.getLast? = some d ∧ jsWs d = false) : jsTrimL s = s := by
  rw [jsTrimL_eq_dropTrailWs, dropWhile_id_of_head hh, dropTrailWs_id hl]

/-- The four cleanup steps are idempotent as a composite on character
lists. -/
theorem cleanup_steps_idem (s : List Char) :
    jsTrimL (dropTrailWs (stripLeadNl (collapse
      (jsTrimL (dropTrailWs (stripLeadNl (collapse s))))))) =
    jsTrimL (dropTrailWs (stripLeadNl (collapse s))) := by
  set z := collapse s with hz
  set y := jsTrimL (dropTrailWs (stripLeadNl z)) with hy
  have hNTz : NoTriple z := by
    rw [hz]
    exact noTriple_collapseF _ _ (Nat.lt_succ_self _)
  have hinf : y <:+: z := by
    rw [hy]
    exact (jsTrimL_isInfixOf _).trans ((dropTrailWs_isPrefixOf _).isInfix.trans
      (stripLeadNl_suffix z).isInfix)
  have hNTy : NoTriple y := NoTriple.of_infix hNTz hinf
  have hhead : y = [] ∨ ∃ d r, y = d :: r ∧ jsWs d = false := by
    cases hc : y with
    | nil => left; rfl
    | cons d r => exact Or.inr ⟨d, r, rfl, jsTrimL_head (hy.symm.trans hc)⟩
  have hlast : y = [] ∨ ∃ d, y.getLast? = some d ∧ jsWs d = false := by
    by_cases hne : y = []
    · left; exact hne
    · right
      have hg := jsTrimL_getLast (s := dropTrailWs (stripLeadNl z)) (by rw [← hy]; exact hne)
      rw [← hy] at hg
      exact hg
  have hcol : collapse y = y := collapseF_id _ _ hNTy
  rw [hcol, stripLeadNl_id hhead, dropTrailWs_id hlast, jsTrimL_id hhead hlast]

/-- `cleanupTemplate` is idempotent. -/
theorem cleanupTemplate_idem (x : String) :
    cleanupTemplate (cleanupTemplate x) = cleanupTemplate x :=
  congrArg String.mk (cleanup_steps_idem x.data)

/-- Claim C9 (amended): re-rendering is the identity on rendered output
that contains no remaining `\x7b\x7b` — under the claim's own proviso
that no directive or placeholder markers are left, a second
`processTemplate` call with the same variables and declarations returns
the content unchanged and reports no errors and no warnings (the
conditional and substitution passes fix such content, and
`cleanupTemplate` is idempotent).  Without the proviso the claim fails:
`c9_counterexample` re-renders an output that still contains a
placeholder produced from a variable's value. -/
theorem c9_rerender_fixed (body : String) (vars : Ctx) (tvs : List PromptVariable)
    (h : containsSeq ['{', '{'] (processTemplate body vars tvs).content.data = false) :
    processTemplate (processTemplate body vars tvs).content vars tvs =
      { content := (processTemplate body vars tvs).content,
        errors := [], warnings := [] } := by
  have h3 : containsSeq ['{', '{', '#'] (processTemplate body vars tvs).content.data = false :=
    containsSeq_mono ⟨['#'], rfl⟩ h
  have hfix : cleanupTemplate (processTemplate body vars tvs).content =
      (processTemplate body vars tvs).content := by
    show cleanupTemplate (cleanupTemplate
      (processVariables (processConditionals body vars) vars tvs).1) = _
    exact cleanupTemplate_idem _
  show processTemplate (processTemplate body vars tvs).content vars tvs = _
  rw [processTemplate, processConditionals_id vars _ h3,
    processVariables_id _ vars tvs h, hfix]

/-- Concrete instance of the amended C9 statement: `Hello
\x7b\x7bname\x7d\x7d!` with `name = "Ada"` renders to `Hello Ada!`,
whose re-render is fixed. -/
theorem c9_rerender_fixed_witness :
    containsSeq ['{', '{']
      (processTemplate "Hello \x7b\x7bname\x7d\x7d!"
        [("name", JSVal.str "Ada")] []).content.data = false ∧
    processTemplate
        (processTemplate "Hello \x7b\x7bname\x7d\x7d!"
          [("name", JSVal.str "Ada")] []).content
        [("name", JSVal.str "Ada")] [] =
      { content := (processTemplate "Hello \x7b\x7bname\x7d\x7d!"
          [("name", JSVal.str "Ada")] []).content,
        errors := [], warnings := [] } :=
  ⟨rfl, c9_rerender_fixed "Hello \x7b\x7bname\x7d\x7d!" [("name", JSVal.str "Ada")] [] rfl⟩

/-! ### Brace-freeness of the value stringifier -/

/-- A sublist of a brace-free list is brace-free. -/
theorem braceFreeL_sublist {a b : List Char} (h : a.Sublist b)
    (hb : braceFreeL b = true) : braceFreeL a = true := by
  simp only [braceFreeL, List.all_eq_true] at hb ⊢
  exact fun x hx => hb x (List.Sublist.mem hx h)

/-- Brace-freeness is closed under append. -/
theorem braceFreeL_append {a b : List Char} (ha : braceFreeL a = true)
    (hb : braceFreeL b = true) : braceFreeL (a ++ b) = true := by
  simp only [braceFreeL, List.all_append] at ha hb ⊢
  rw [ha, hb]
  rfl

/-- A brace-free list contains no opening brace. -/
theorem braceFreeL_no_open {run : List Char} (h : braceFreeL run = true) :
    ∀ x ∈ run, x ≠ '{' := by
  intro x hx
  have hc := List.all_eq_true.mp h x hx
  simp only [braceFreeC, decide_eq_true_eq] at hc
  exact hc.1

/-- A brace-free list contains no closing brace. -/
theorem braceFreeL_no_close {run : List Char} (h : braceFreeL run = true) :
    ∀ x ∈ run, x ≠ '}' := by
  intro x hx
  have hc := List.all_eq_true.mp h x hx
  simp only [braceFreeC, decide_eq_true_eq] at hc
  exact hc.2

/-- Decimal digit characters are brace-free. -/
theorem digitChar_bf (k : ℕ) : braceFreeC (digitChar k) = true := by
  unfold digitChar
  repeat' split
  all_goals decide

/-- Digit expansions are brace-free. -/
theorem natDigitsF_bf : ∀ (fuel n : ℕ), braceFreeL (natDigitsF fuel n) = true := by
  intro fuel
  induction fuel with
  | zero => intro n; rfl
  | succ m ih =>
    intro n
    simp only [natDigitsF]
    split
    · simp [braceFreeL, digitChar_bf]
    · exact braceFreeL_append (ih _) (by simp [braceFreeL, digitChar_bf])

/-- Printed naturals are brace-free. -/
theorem natToString_bf (n : ℕ) : braceFreeL (natToString n).data = true :=
  natDigitsF_bf _ _

/-- Printed integers are brace-free. -/
theorem intToString_bf (i : ℤ) : braceFreeL (intToString i).data = true := by
  unfold intToString
  split
  · rw [String.data_append]
    exact braceFreeL_append (by decide) (natToString_bf _)
  · exact natToString_bf _

/-- Zero-padding preserves brace-freeness. -/
theorem padZeros_bf {s : String} (h : braceFreeL s.data = true) (n : ℕ) :
    braceFreeL (padZeros s n).data = true := by
  unfold padZeros
  rw [String.data_append]
  refine braceFreeL_append ?_ h
  show braceFreeL (List.replicate (n - s.length) '0') = true
  simp only [braceFreeL, List.all_eq_true]
  intro x hx
  rw [List.eq_of_mem_replicate hx]
  decide

/-- Printed numbers are brace-free. -/
theorem numToString_bf (q : ℚ) : braceFreeL (numToString q).data = true := by
  simp only [numToString]
  split
  · exact intToString_bf _
  · split
    · rw [String.data_append, String.data_append, String.data_append]
      refine braceFreeL_append (braceFreeL_append (braceFreeL_append ?_ ?_) ?_) ?_
      · split <;> decide
      · exact braceFreeL_sublist (List.take_sublist _ _) (padZeros_bf (natToString_bf _) _)
      · decide
      · exact braceFreeL_sublist (List.drop_sublist _ _) (padZeros_bf (natToString_bf _) _)
    · rw [String.data_append, String.data_append]
      exact braceFreeL_append (braceFreeL_append (intToString_bf _) (by decide))
        (natToString_bf _)

/-- Joint statement: `String(value)` and the array-join element form of a
brace-free value are brace-free, by strong induction on the value size. -/
theorem jsToString_bf_all :
    ∀ n : ℕ,
      (∀ v : JSVal, sizeOf v ≤ n → braceFreeVal v = true →
        braceFreeL (jsToString v).data = true ∧ braceFreeL (arrElemStr v).data = true) ∧
      (∀ xs : List JSVal, sizeOf xs ≤ n → braceFreeValList xs = true →
        braceFreeL (arrJoinStr xs).data = true) := by
  intro n
  induction n with
  | zero =>
    constructor
    · intro v hv _
      exact absurd hv (by cases v <;> simp)
    · intro xs hxs _
      exact absurd hxs (by cases xs <;> simp)
  | succ n ih =>
    constructor
    · intro v hv hbf
      cases v with
      | undef => exact ⟨by decide, by decide⟩
      | null => exact ⟨by decide, by decide⟩
      | bool b => cases b <;> exact ⟨by decide, by decide⟩
      | num q =>
        constructor
        · simpa only [jsToString] using numToString_bf q
        · simpa only [arrElemStr] using numToString_bf q
      | str s =>
        have hs : braceFreeL s.data = true := by simpa [braceFreeVal] using hbf
        exact ⟨by simpa only [jsToString] using hs, by simpa only [arrElemStr] using hs⟩
      | arr xs =>
        have hsz : sizeOf xs ≤ n := by
          have hspec := JSVal.arr.sizeOf_spec xs
          omega
        have hl : braceFreeValList xs = true := by simpa [braceFreeVal] using hbf
        have hj := ih.2 xs hsz hl
        exact ⟨by simpa only [jsToString] using hj, by simpa only [arrElemStr] using hj⟩
      | obj fs =>
        exact ⟨by simp only [jsToString]; decide, by simp only [arrElemStr]; decide⟩
    · intro xs hxs hbf
      cases xs with
      | nil => decide
      | cons x xs' =>
        simp only [braceFreeValList, Bool.and_eq_true] at hbf
        have hx : sizeOf x ≤ n := by
          have hspec := List.cons.sizeOf_spec x xs'
          omega
        cases xs' with
        | nil =>
          simpa only [arrJoinStr] using (ih.1 x hx hbf.1).2
        | cons y rest =>
          have hy : sizeOf (y :: rest) ≤ n := by
            have hspec := List.cons.sizeOf_spec x (y :: rest)
            omega
          have h1 := (ih.1 x hx hbf.1).2
          have h2 := ih.2 (y :: rest) hy hbf.2
          simp only [arrJoinStr]
          rw [String.data_append, String.data_append]
          exact braceFreeL_append (braceFreeL_append h1 (by decide)) h2

/-- `String(value)` of a brace-free value is brace-free. -/
theorem jsToString_bf {v : JSVal} (h : braceFreeVal v = true) :
    braceFreeL (jsToString v).data = true :=
  ((jsToString_bf_all (sizeOf v)).1 v (le_refl _) h).1

/-! ### Brace-freeness through expression evaluation -/

/-- Every field value of a brace-free object is brace-free. -/
theorem braceFreeValFields_mem :
    ∀ {fs : List (String × JSVal)}, braceFreeValFields fs = true →
      ∀ p ∈ fs, braceFreeVal p.2 = true := by
  intro fs
  induction fs with
  | nil => intro _ p hp; simp at hp
  | cons q fs ih =>
    intro h p hp
    obtain ⟨a, v⟩ := q
    simp only [braceFreeValFields, Bool.and_eq_true] at h
    rcases List.mem_cons.mp hp with rfl | hp'
    · exact h.1
    · exact ih h.2 p hp'

/-- Property lookup on a brace-free object yields a brace-free value. -/
theorem ctxLookup_bf {fs : List (String × JSVal)} (h : braceFreeValFields fs = true)
    (k : String) : braceFreeVal ((ctxLookup fs k).getD .undef) = true := by
  unfold ctxLookup
  cases hf : fs.find? (fun p => p.1 = k) with
  | none => rfl
  | some p =>
    exact braceFreeValFields_mem h p (List.mem_of_find?_eq_some hf)

/-- Indexing a brace-free array yields a brace-free value. -/
theorem getD_bf : ∀ (xs : List JSVal) (i : ℕ), braceFreeValList xs = true →
    braceFreeVal (xs.getD i .undef) = true := by
  intro xs
  induction xs with
  | nil => intro i _; cases i <;> rfl
  | cons x xs ih =>
    intro i h
    simp only [braceFreeValList, Bool.and_eq_true] at h
    cases i with
    | zero => rw [List.getD_cons_zero]; exact h.1
    | succ j => rw [List.getD_cons_succ]; exact ih j h.2

/-- Property reads preserve brace-freeness. -/
theorem jsGetProp_bf {v : JSVal} (k : String) (hv : braceFreeVal v = true) :
    braceFreeVal (jsGetProp v k) = true := by
  cases v with
  | obj fs =>
    simp only [jsGetProp]
    exact ctxLookup_bf (by simpa [braceFreeVal] using hv) k
  | arr xs =>
    simp only [jsGetProp]
    split
    · rfl
    · split
      · exact getD_bf xs _ (by simpa [braceFreeVal] using hv)
      · rfl
  | undef => rfl
  | null => rfl
  | bool b => rfl
  | num q => rfl
  | str s => rfl

/-- Dotted-path walks preserve brace-freeness. -/
theorem walkPath_bf : ∀ (ps : List String) (v : JSVal), braceFreeVal v = true →
    braceFreeVal (walkPath ps v) = true := by
  intro ps
  induction ps with
  | nil => intro v hv; exact hv
  | cons p ps ih =>
    intro v hv
    simp only [walkPath]
    split
    · exact ih _ (jsGetProp_bf p hv)
    · rfl

/-- A successful expression evaluation over a brace-free variable mapping
and a brace-free expression yields a brace-free value. -/
theorem evaluateExpr_bf {vars : Ctx} (hvars : braceFreeValFields vars = true) :
    ∀ (fuel : ℕ) (expr : String) (v : JSVal),
      braceFreeL expr.data = true → evaluateExpr vars fuel expr = .ok v →
      braceFreeVal v = true := by
  intro fuel
  cases fuel with
  | zero => intro expr v _ hok; exact absurd hok (by simp [evaluateExpr])
  | succ n =>
    intro expr v he hok
    simp only [evaluateExpr] at hok
    split at hok
    · cases hok
      show braceFreeL ((expr.data.drop 1).dropLast) = true
      exact braceFreeL_sublist ((List.dropLast_sublist _).trans (List.drop_sublist 1 _)) he
    · split at hok
      · cases hok
        show braceFreeL ((expr.data.drop 1).dropLast) = true
        exact braceFreeL_sublist ((List.dropLast_sublist _).trans (List.drop_sublist 1 _)) he
      · split at hok
        · cases hok
          rfl
        · split at hok
          · cases hok; rfl
          · split at hok
            · cases hok; rfl
            · split at hok
              · cases hok; rfl
              · split at hok
                · cases hok; rfl
                · split at hok
                  · cases hok
                    exact walkPath_bf _ _ (by simpa [braceFreeVal] using hvars)
                  · split at hok
                    · split at hok
                      · exact absurd hok (by simp)
                      · split at hok
                        · rename_i xs heq
                          cases hok
                          have hl := ctxLookup_bf hvars
                            (String.mk (expr.data.takeWhile wordChar))
                          rw [heq] at hl
                          exact jsGetProp_bf _ hl
                        · rename_i fs heq
                          cases hok
                          have hl := ctxLookup_bf hvars
                            (String.mk (expr.data.takeWhile wordChar))
                          rw [heq] at hl
                          exact jsGetProp_bf _ hl
                        · exact absurd hok (by simp)
                        · cases hok; rfl
                    · cases hok
                      exact ctxLookup_bf hvars expr

/-- The substitution callback produces brace-free replacement text from a
brace-free expression, mapping and defaults. -/
theorem substituteVariable_bf (e : String) (vars : Ctx) (tvs : List PromptVariable)
    (he : braceFreeL e.data = true) (hvars : braceFreeValFields vars = true)
    (htvs : ∀ tv ∈ tvs, braceFreeVal tv.default = true) :
    braceFreeL (substituteVariable e vars tvs).1.data = true := by
  have htr : braceFreeL (jsTrim e).data = true :=
    braceFreeL_sublist (jsTrimL_isInfixOf e.data).sublist he
  simp only [substituteVariable]
  split
  · rw [String.data_append, String.data_append]
    exact braceFreeL_append (braceFreeL_append (by decide) htr) (by decide)
  · rename_i v heval
    have hv : braceFreeVal v = true := evaluateExpr_bf hvars _ _ v htr heval
    split
    · split
      · rename_i tv hf
        split
        · rw [String.data_append, String.data_append]
          exact braceFreeL_append (braceFreeL_append (by decide) htr) (by decide)
        · split
          · show braceFreeL ("" : String).data = true
            decide
          · have hbd : braceFreeVal tv.default = true :=
              htvs tv (List.mem_of_find?_eq_some hf)
            exact jsToString_bf hbd
      · show braceFreeL ("" : String).data = true
        decide
    · split
      · rename_i tv hf
        split
        · rw [String.data_append, String.data_append]
          exact braceFreeL_append (braceFreeL_append (by decide) htr) (by decide)
        · split
          · show braceFreeL ("" : String).data = true
            decide
          · have hbd : braceFreeVal tv.default = true :=
              htvs tv (List.mem_of_find?_eq_some hf)
            exact jsToString_bf hbd
      · show braceFreeL ("" : String).data = true
        decide
    · rename_i hne1 hne2
      exact jsToString_bf hv

/-! ### Well-formed bodies through the passes -/

/-- One unfolding step of the occurrence scanner. -/
theorem containsSeq_cons_eq (pat : List Char) (c : Char) (rest : List Char) :
    containsSeq pat (c :: rest) =
      (pat.isPrefixOf (c :: rest) || containsSeq pat rest) := rfl

/-- Splitting on the first closing brace after a brace-free block. -/
theorem takeWhile_dropWhile_append {p : Char → Bool} {b : Char} {B : List Char}
    (hb : p b = false) :
    ∀ A : List Char, (∀ x ∈ A, p x = true) →
      (A ++ b :: B).takeWhile p = A ∧ (A ++ b :: B).dropWhile p = b :: B := by
  intro A
  induction A with
  | nil =>
    intro _
    constructor
    · simp [List.takeWhile_cons, hb]
    · simp [List.dropWhile_cons, hb]
  | cons a A' ih =>
    intro hA
    have ha : p a = true := hA a (by simp)
    have ih' := ih (fun x hx => hA x (by simp [hx]))
    constructor
    · simp only [List.cons_append, List.takeWhile_cons, ha, if_true, ih'.1]
    · simp only [List.cons_append, List.dropWhile_cons, ha, if_true, ih'.2]

/-- Structure of a well-formed body that starts with `\x7b\x7b`: an
opening marker, a non-empty brace-free expression not starting with `#`,
`/` or `^`, a closing marker, and a well-formed remainder. -/
theorem wf_guard_elim {n : ℕ} {c : Char} {rest : List Char}
    (hpre : ['{', '{'].isPrefixOf (c :: rest) = true)
    (h : wfBodyF (n + 1) (c :: rest) = true) :
    ∃ run tl, c = '{' ∧ rest = '{' :: (run ++ '}' :: '}' :: tl) ∧
      run ≠ [] ∧ run.head? ≠ some '#' ∧ run.head? ≠ some '/' ∧ run.head? ≠ some '^' ∧
      braceFreeL run = true ∧ wfBodyF n tl = true := by
  obtain ⟨u, hu⟩ := List.isPrefixOf_iff_prefix.mp hpre
  simp only [List.cons_append, List.nil_append, List.cons.injEq] at hu
  obtain ⟨rfl, rfl⟩ := hu
  simp only [wfBodyF, List.drop_succ_cons, List.drop_zero] at h
  split at h
  · split at h
    · rename_i hg
      obtain ⟨hne, h1, h2, h3, hbf, htake⟩ := hg
      refine ⟨u.takeWhile (fun d => d ≠ '}'), (u.dropWhile (fun d => d ≠ '}')).drop 2,
        rfl, ?_, hne, h1, h2, h3, hbf, h⟩
      have hdw : ('}' :: '}' :: (u.dropWhile (fun d => d ≠ '}')).drop 2) =
          u.dropWhile (fun d => d ≠ '}') := by
        have h2 := List.take_append_drop 2 (u.dropWhile (fun d => d ≠ '}'))
        rw [htake] at h2
        simpa using h2
      rw [hdw, List.takeWhile_append_dropWhile]
    · exact absurd h (by simp)
  · rename_i hneg
    exact absurd (by simp [List.isPrefixOf]) hneg

/-- Structure of a well-formed body that does not start with `\x7b\x7b`:
a brace-free head character and a well-formed remainder. -/
theorem wf_nonpre_elim {n : ℕ} {c : Char} {rest : List Char}
    (hpre : ['{', '{'].isPrefixOf (c :: rest) = false)
    (h : wfBodyF (n + 1) (c :: rest) = true) :
    (c ≠ '{' ∧ c ≠ '}') ∧ wfBodyF n rest = true := by
  simp only [wfBodyF, hpre, Bool.false_eq_true, if_false] at h
  split at h
  · rename_i hc
    exact ⟨hc, h⟩
  · exact absurd h (by simp)

/-- Evaluation of one substitution match on a placeholder segment. -/
theorem substVarsGo_step (vars : Ctx) (tvs : List PromptVariable) (n : ℕ)
    {run tl : List Char} (hbf : braceFreeL run = true) (hne : run ≠ [])
    (hh1 : run.head? ≠ some '#') (hh2 : run.head? ≠ some '/')
    (hh3 : run.head? ≠ some '^') :
    substVarsGo vars tvs (n + 1) ('{' :: '{' :: (run ++ '}' :: '}' :: tl)) =
      ((substituteVariable (String.mk run) vars tvs).1.data ++
        (substVarsGo vars tvs n tl).1,
       (substituteVariable (String.mk run) vars tvs).2.1 ++
        (substVarsGo vars tvs n tl).2.1,
       (substituteVariable (String.mk run) vars tvs).2.2 ++
        (substVarsGo vars tvs n tl).2.2) := by
  have hpre : ['{', '{'].isPrefixOf ('{' :: '{' :: (run ++ '}' :: '}' :: tl)) = true := by
    simp [List.isPrefixOf]
  have htd := takeWhile_dropWhile_append (p := fun d => d ≠ '}') (b := '}')
    (B := '}' :: tl) (by simp) run
    (fun x hx => by simp [braceFreeL_no_close hbf x hx])
  simp only [substVarsGo, List.drop_succ_cons, List.drop_zero, htd.1, htd.2,
    List.take_succ_cons, List.take_zero]
  rw [if_pos hpre, if_pos ⟨hne, hh1, hh2, hh3, trivial⟩]

/-- On a well-formed body the substitution pass emits brace-free text. -/
theorem substVarsGo_wf_bf (vars : Ctx) (tvs : List PromptVariable)
    (hvars : braceFreeValFields vars = true)
    (htvs : ∀ tv ∈ tvs, braceFreeVal tv.default = true) :
    ∀ (fuel : ℕ) (s : List Char), wfBodyF fuel s = true →
      braceFreeL (substVarsGo vars tvs fuel s).1 = true := by
  intro fuel
  induction fuel with
  | zero => intro s h; simp [wfBodyF] at h
  | succ n ih =>
    intro s h
    cases s with
    | nil => rfl
    | cons c rest =>
      by_cases hpre : ['{', '{'].isPrefixOf (c :: rest) = true
      · obtain ⟨run, tl, rfl, rfl, hne, h1, h2, h3, hbf, hwf⟩ := wf_guard_elim hpre h
        rw [substVarsGo_step vars tvs n hbf hne h1 h2 h3]
        exact braceFreeL_append (substituteVariable_bf (String.mk run) vars tvs hbf hvars htvs)
          (ih _ hwf)
      · have hpf : ['{', '{'].isPrefixOf (c :: rest) = false := by
          cases hb : ['{', '{'].isPrefixOf (c :: rest)
          · rfl
          · exact absurd hb hpre
        obtain ⟨⟨hc1, hc2⟩, hwf⟩ := wf_nonpre_elim hpf h
        simp only [substVarsGo, hpf, Bool.false_eq_true, if_false]
        simp only [braceFreeL, List.all_cons, Bool.and_eq_true]
        constructor
        · simp only [braceFreeC, decide_eq_true_eq]
          exact ⟨hc1, hc2⟩
        · have := ih rest hwf
          simpa only [braceFreeL] using this

/-- `containsSeq` stays false when a character that cannot start the
pattern is prepended. -/
theorem containsSeq_cons_ne {p : List Char} {c0 a : Char} {l : List Char}
    (hp : p.head? = some c0) (ha : a ≠ c0) (h : containsSeq p l = false) :
    containsSeq p (a :: l) = false := by
  cases p with
  | nil => simp at hp
  | cons p0 p' =>
    simp only [List.head?_cons, Option.some.injEq] at hp
    subst hp
    simp only [containsSeq, Bool.or_eq_false_iff]
    refine ⟨?_, h⟩
    have hba : (p0 == a) = false := beq_eq_false_iff_ne.mpr (Ne.symm ha)
    simp [List.isPrefixOf, hba]

/-- `containsSeq` stays false across a block containing no character that
could start the pattern. -/
theorem containsSeq_no_start_append {p : List Char} {c0 : Char}
    (hp : p.head? = some c0) :
    ∀ (run tail : List Char), (∀ x ∈ run, x ≠ c0) → containsSeq p tail = false →
      containsSeq p (run ++ tail) = false := by
  intro run
  induction run with
  | nil => intro tail _ h; exact h
  | cons a run' ih =>
    intro tail hx h
    simp only [List.cons_append]
    exact containsSeq_cons_ne hp (hx a (by simp))
      (ih tail (fun x hxm => hx x (by simp [hxm])) h)

/-- A well-formed placeholder segment contains no `\x7b\x7b#`. -/
theorem no_hash_segment {run tl : List Char}
    (hhd : run.head? ≠ some '#') (hne : run ≠ []) (hbf : braceFreeL run = true)
    (htl : containsSeq ['{', '{', '#'] tl = false) :
    containsSeq ['{', '{', '#'] ('{' :: '{' :: (run ++ '}' :: '}' :: tl)) = false := by
  cases run with
  | nil => exact absurd rfl hne
  | cons r0 run' =>
    have hr0 : r0 ≠ '#' := by
      intro hq
      exact hhd (by rw [hq]; rfl)
    have hr0' : r0 ≠ '{' := braceFreeL_no_open hbf r0 (by simp)
    have h2 : containsSeq ['{', '{', '#'] ('}' :: '}' :: tl) = false :=
      containsSeq_cons_ne rfl (by decide) (containsSeq_cons_ne rfl (by decide) htl)
    have h3 : containsSeq ['{', '{', '#'] ((r0 :: run') ++ '}' :: '}' :: tl) = false :=
      containsSeq_no_start_append
        (show (['{', '{', '#'] : List Char).head? = some '{' from rfl) _ _
        (braceFreeL_no_open hbf) h2
    have hb1 : ('{' == r0) = false := beq_eq_false_iff_ne.mpr (Ne.symm hr0')
    have hb2 : ('#' == r0) = false := beq_eq_false_iff_ne.mpr (Ne.symm hr0)
    have hstep : ∀ Y : List Char, (r0 :: run') ++ Y = r0 :: (run' ++ Y) := fun Y => rfl
    rw [containsSeq_cons_eq, containsSeq_cons_eq, hstep]
    have hpf0 : List.isPrefixOf ['{', '{', '#']
        ('{' :: '{' :: r0 :: (run' ++ '}' :: '}' :: tl)) = false := by
      simp [List.isPrefixOf, hb2]
    have hpf1 : List.isPrefixOf ['{', '{', '#']
        ('{' :: r0 :: (run' ++ '}' :: '}' :: tl)) = false := by
      simp [List.isPrefixOf, hb1]
    have h3' : containsSeq ['{', '{', '#'] (r0 :: (run' ++ '}' :: '}' :: tl)) = false := by
      rw [← hstep]
      exact h3
    rw [hpf0, hpf1, h3']
    rfl

/-- A well-formed body contains no `\x7b\x7b#`, so the conditional passes
leave it unchanged. -/
theorem wfBodyF_no_hash : ∀ (fuel : ℕ) (s : List Char), wfBodyF fuel s = true →
    containsSeq ['{', '{', '#'] s = false := by
  intro fuel
  induction fuel with
  | zero => intro s h; simp [wfBodyF] at h
  | succ n ih =>
    intro s h
    cases s with
    | nil => rfl
    | cons c rest =>
      by_cases hpre : ['{', '{'].isPrefixOf (c :: rest) = true
      · obtain ⟨run, tl, rfl, rfl, hne, h1, _, _, hbf, hwf⟩ := wf_guard_elim hpre h
        exact no_hash_segment h1 hne hbf (ih tl hwf)
      · have hpf : ['{', '{'].isPrefixOf (c :: rest) = false := by
          cases hb : ['{', '{'].isPrefixOf (c :: rest)
          · rfl
          · exact absurd hb hpre
        obtain ⟨⟨hc1, _⟩, hwf⟩ := wf_nonpre_elim hpf h
        exact containsSeq_cons_ne rfl hc1 (ih rest hwf)

/-- A blank-line collapse step preserves brace-freeness. -/
theorem collapseRun_bf {run : List Char} (h : braceFreeL run = true) :
    braceFreeL (collapseRun run) = true := by
  unfold collapseRun
  split
  · refine braceFreeL_append (braceFreeL_sublist (List.takeWhile_prefix _).sublist h) ?_
    simp only [braceFreeL, List.all_cons, Bool.and_eq_true]
    refine ⟨by decide, by decide, ?_⟩
    have hs : ((run.reverse.takeWhile (fun c => c ≠ '\n')).reverse).Sublist run := by
      have h1 := (List.takeWhile_prefix (l := run.reverse)
        (fun c => c ≠ '\n')).sublist.reverse
      rwa [List.reverse_reverse] at h1
    exact braceFreeL_sublist hs h
  · exact h

/-- The blank-line collapse preserves brace-freeness. -/
theorem collapseF_bf : ∀ (fuel : ℕ) (s : List Char), braceFreeL s = true →
    braceFreeL (collapseF fuel s) = true := by
  intro fuel
  induction fuel with
  | zero => intro s h; exact h
  | succ n ih =>
    intro s h
    cases s with
    | nil => rfl
    | cons c rest =>
      rw [braceFreeL, List.all_cons, Bool.and_eq_true] at h
      simp only [collapseF]
      split
      · refine braceFreeL_append (collapseRun_bf ?_)
          (ih _ (braceFreeL_sublist (List.dropWhile_sublist _) h.2))
        rw [braceFreeL, List.all_cons, Bool.and_eq_true]
        exact ⟨h.1, braceFreeL_sublist (List.takeWhile_prefix _).sublist h.2⟩
      · rw [braceFreeL, List.all_cons, Bool.and_eq_true]
        exact ⟨h.1, ih rest h.2⟩

/-- The whole cleanup preserves brace-freeness. -/
theorem cleanupTemplate_bf {x : String} (h : braceFreeL x.data = true) :
    braceFreeL (cleanupTemplate x).data = true := by
  show braceFreeL (jsTrimL (dropTrailWs (stripLeadNl (collapse x.data)))) = true
  have h1 : braceFreeL (collapse x.data) = true := collapseF_bf _ _ h
  have h2 : braceFreeL (stripLeadNl (collapse x.data)) = true :=
    braceFreeL_sublist (stripLeadNl_suffix _).sublist h1
  have h3 := braceFreeL_sublist (dropTrailWs_isPrefixOf _).sublist h2
  exact braceFreeL_sublist (jsTrimL_isInfixOf _).sublist h3

/-- A brace-free list contains no `\x7b\x7b`. -/
theorem containsSeq_open_false {s : List Char} (h : braceFreeL s = true) :
    containsSeq ['{', '{'] s = false := by
  induction s with
  | nil => rfl
  | cons c rest ih =>
    rw [braceFreeL, List.all_cons, Bool.and_eq_true] at h
    have hc : c ≠ '{' := by
      have hcc := h.1
      simp only [braceFreeC, decide_eq_true_eq] at hcc
      exact hcc.1
    exact containsSeq_cons_ne rfl hc (ih h.2)

/-- Claim C1 (amended): the claim quantifies over every body and mapping,
but a stray directive marker is passed through verbatim
(`c1_counterexample`).  For the bodies the engine's substitution grammar
accepts — brace-free literal text interleaved with plain
`\x7b\x7bexpr\x7d\x7d` placeholders (`wfBody`) — and variable values and
declared defaults whose string forms are brace-free, the rendered content
is brace-free, hence contains no `\x7b\x7b...\x7d\x7d` placeholder
syntax: every placeholder is substituted (with a resolved value, a
default, an empty string, or an explicit `[MISSING: name]`/
`[ERROR: name]` marker, none of which contain braces). -/
theorem c1_wf_render_clean (body : String) (vars : Ctx) (tvs : List PromptVariable)
    (hwf : wfBody body.data = true)
    (hvars : braceFreeValFields vars = true)
    (htvs : ∀ tv ∈ tvs, braceFreeVal tv.default = true) :
    braceFreeL (processTemplate body vars tvs).content.data = true ∧
    containsSeq ['{', '{'] (processTemplate body vars tvs).content.data = false := by
  have hnh : containsSeq ['{', '{', '#'] body.data = false := wfBodyF_no_hash _ _ hwf
  have hnc : processConditionals body vars = body := processConditionals_id vars body hnh
  have hsub : braceFreeL (substVarsGo vars tvs (body.data.length + 1) body.data).1 = true :=
    substVarsGo_wf_bf vars tvs hvars htvs _ _ hwf
  have hcontent : braceFreeL (processTemplate body vars tvs).content.data = true := by
    show braceFreeL (cleanupTemplate
      (processVariables (processConditionals body vars) vars tvs).1).data = true
    rw [hnc]
    exact cleanupTemplate_bf hsub
  exact ⟨hcontent, containsSeq_open_false hcontent⟩

/-- Concrete instance of the amended C1 statement: a well-formed body
with one placeholder and a brace-free string value renders to brace-free
content. -/
theorem c1_wf_render_clean_witness :
    wfBody ("Hello \x7b\x7bname\x7d\x7d!").data = true ∧
    braceFreeValFields [("name", JSVal.str "Ada")] = true ∧
    (∀ tv ∈ ([] : List PromptVariable), braceFreeVal tv.default = true) ∧
    braceFreeL (processTemplate "Hello \x7b\x7bname\x7d\x7d!"
      [("name", JSVal.str "Ada")] []).content.data = true ∧
    containsSeq ['{', '{'] (processTemplate "Hello \x7b\x7bname\x7d\x7d!"
      [("name", JSVal.str "Ada")] []).content.data = false :=
  ⟨rfl, rfl, by simp,
   (c1_wf_render_clean "Hello \x7b\x7bname\x7d\x7d!" [("name", JSVal.str "Ada")] []
     rfl rfl (by simp)).1,
   (c1_wf_render_clean "Hello \x7b\x7bname\x7d\x7d!" [("name", JSVal.str "Ada")] []
     rfl rfl (by simp)).2⟩

end VibeCheck
